import Mathlib

/-!
Verification of the VidShare feed-assembly and experimental-manipulation engine
(`controllers/helpers.js`).

The JavaScript source is shallowly embedded below.  Conventions:

* JavaScript objects become Lean structures.  Fields that a particular object
  literal in the source does not set are modelled with `Option` when the source
  guards on their definedness (`allowInteractions`, document ids), and with the
  source's effective default otherwise.
* Machine times are millisecond offsets, modelled as `Int`.
* `Date.now()` and the freshly generated Mongo `ObjectId` are nondeterministic
  inputs; they are threaded through as explicit parameters `now` and `oid`.
* Mongoose queries (`Script.find`, `Actor.findOne`, `Actor.find`) are reads of
  explicit store parameters; the source contains no `save`/`update` call, so
  no store is ever returned modified.
* `toObject()` conversions are modelled as the identity; the field-preserving
  cross-reference logic that the source layers on top of them is embedded
  faithfully.
* JavaScript's stable `Array.prototype.sort` is modelled by a structural,
  stable insertion sort (`insertionSort`).
* A JavaScript `TypeError` (the source indexes an array at `-1` and
  dereferences the resulting `undefined` when a buffered reply's parent is
  missing) is modelled by `Option`: feed assembly returns `none` on that path.
-/

/-- Model of JavaScript `String.prototype.includes` on character lists:
`charsContain pat l` is true when `pat` occurs contiguously inside `l`. -/
def charsContain (pat : List Char) : List Char → Bool
  | [] => pat.isEmpty
  | c :: rest => pat.isPrefixOf (c :: rest) || charsContain pat rest

/-- Model of JavaScript `s.includes(pat)`. -/
def jsIncludes (s pat : String) : Bool :=
  charsContain pat.toList s.toList

/-- Model of JavaScript `s.startsWith(pre)`, computed on character lists so
that it evaluates structurally. -/
def jsStartsWith (s pre : String) : Bool :=
  pre.toList.isPrefixOf s.toList

/-- Model of the JavaScript idiom `process.env.X || defaultText`: the default
is used both when the variable is unset and when it is the empty string
(which is falsy in JavaScript). -/
def jsOrDefault : Option String → String → String
  | some s, d => if s = "" then d else s
  | none, d => d

/-- Stable insertion of one element into a sorted list; ties keep the inserted
element in front of later equal elements, matching stable `Array.sort`. -/
def insertSorted (le : α → α → Bool) (a : α) : List α → List α
  | [] => [a]
  | b :: l => if le a b then a :: b :: l else b :: insertSorted le a l

/-- Stable sort modelling JavaScript `Array.prototype.sort` (required to be
stable by the ECMAScript specification). -/
def insertionSort (le : α → α → Bool) : List α → List α
  | [] => []
  | a :: l => insertSorted le a (insertionSort le l)

/-- Actor profile (`models/Actor`); plain record of display fields. -/
structure Profile where
  name : String
  location : String
  bio : String
  color : String
  picture : String
deriving Repr, DecidableEq

/-- An actor document.  `cls` embeds the source's `class` field (`class` is a
reserved word in Lean); it is `none` on objects the source builds without a
`class` property (the `[deleted]` sentinel). -/
structure Actor where
  aid : Nat
  username : String
  cls : Option String
  profile : Profile
deriving Repr, DecidableEq

/-- A subcomment (reply).  `sid` embeds the document `id`; it is `none` on
user-created reply records, which the source builds without an `id` field.
`reply_to` and `parent_comment` are set only on user replies. -/
structure Subcomment where
  sid : Option Nat
  commentID : Int
  body : String
  likes : Int
  unlikes : Int
  actor : Actor
  time : Int
  cls : String
  new_comment : Bool
  liked : Bool
  unliked : Bool
  flagged : Bool
  reply_to : Option Int
  parent_comment : Option Int
deriving Repr, DecidableEq

/-- A top-level comment.  `cid` embeds the document `id` (`none` on
user-created comment records, which carry no `id`).  `allowInteractions` is a
non-schema property assigned by the manipulation code; the source guards on
its definedness, so it is an `Option`.  `new_comment` is `true` exactly on
user-created records, which the source builds without a `subcomments`
property; dereferencing that missing property is the modelled crash. -/
structure Comment where
  cid : Option Nat
  commentID : Int
  body : String
  likes : Int
  unlikes : Int
  actor : Actor
  time : Int
  cls : String
  removed : Bool
  allowInteractions : Option Bool
  liked : Bool
  unliked : Bool
  flagged : Bool
  new_comment : Bool
  subcomments : List Subcomment
deriving Repr, DecidableEq

/-- A video (post) document.  Modelled from the spec: the Script schema is not
part of the sources under verification; the spec's data model declares
per-user overlay booleans `liked`, `unliked`, `flagged` on a video.  The
replay code in `getFeed` assigns distinct properties `like`, `unlike`, `flag`,
embedded here as separate fields. -/
structure Video where
  vid : Nat
  postID : Int
  cls : String
  actor : Actor
  comments : List Comment
  likes : Int
  unlikes : Int
  liked : Bool
  unliked : Bool
  flagged : Bool
  like : Bool
  unlike : Bool
  flag : Bool
deriving Repr, DecidableEq

/-- One entry of `feedAction[i].comments`: either a reference to an existing
comment/subcomment (`new_comment = false`, target id in `comment`) or a brand
new user comment (`new_comment = true`). -/
structure ActionedComment where
  new_comment : Bool
  comment : Nat
  new_comment_id : Int
  body : String
  liked : Bool
  unliked : Bool
  flagged : Bool
  relativeTime : Int
  reply_to : Option Int
  parent_comment : Int
deriving Repr, DecidableEq

/-- One per-post entry of a user's action log. -/
structure FeedAction where
  post : Nat
  liked : Bool
  unliked : Bool
  flagged : Bool
  comments : List ActionedComment
deriving Repr, DecidableEq

/-- The user fields read by the feed core. -/
structure User where
  interest : String
  condition : String
  createdAt : Int
  feedAction : List FeedAction
deriving Repr, DecidableEq

/-- The `process.env` message overrides read by the manipulation code. -/
structure Env where
  HARASSMENT_COMMENT : Option String
  REMOVAL_AI_NO_REF : Option String
  REMOVAL_AI_REF : Option String
  REMOVAL_COM_NO_REF : Option String
  REMOVAL_COM_REF : Option String
  OBJECTION_AI_NO_REF : Option String
  OBJECTION_AI_REF : Option String
  OBJECTION_COM_NO_REF : Option String
  OBJECTION_COM_REF : Option String
deriving Repr, DecidableEq

/-- `-6 * 60 * 60 * 1000`: the fixed harassment-comment display offset. -/
def HARASSMENT_TIME_OFFSET : Int := -6 * 60 * 60 * 1000

/-- Helper from the source: pin a comment's time to the fixed -6h offset. -/
def setHarassmentCommentTime (comment : Comment) : Comment :=
  { comment with time := HARASSMENT_TIME_OFFSET }

/-- Helper from the source: serialize an actor for use in subcomments.
`toObject` conversions are the identity in this embedding. -/
def serializeActorForSubcomment (actor : Actor) : Actor :=
  actor

/-- The placeholder profile of the `[deleted]` sentinel actor. -/
def deletedProfile : Profile :=
  { name := "", location := "", bio := "", color := "#9bbcd6", picture := "30_bat.svg" }

/-- Helper from the source: replace a comment's actor by the `[deleted]`
sentinel, keeping the original actor's `_id`.  The sentinel object carries no
`class` property, hence `cls := none`. -/
def setDeletedActor (comment : Comment) (originalActor : Actor) : Comment :=
  { comment with actor :=
      { aid := originalActor.aid
        username := "[deleted]"
        cls := none
        profile := deletedProfile } }

/-- The canonical harassment body (fallback default in the source). -/
def defaultHarassmentComment : String :=
  "LOL, did you even preview this before sharing? No one is interested in this crap. Save your time and ours."

/-- Modify the element at index `i` (out-of-range indices leave the list
unchanged); used to embed in-place element mutation. -/
def modifyIdx (l : List α) (i : Nat) (f : α → α) : List α :=
  match l[i]? with
  | some a => l.set i (f a)
  | none => l

/-- Locate the harassment comment in the first video: by `class == "offense1"`
first, then by body substring; the search only runs when the video has
comments at all (`comments.length > 0` guard in the source). -/
def locateHarassmentIndex (comments : List Comment) : Option Nat :=
  if comments.length > 0 then
    match comments.findIdx? (fun c => c.cls == "offense1") with
    | some i => some i
    | none => comments.findIdx? (fun c => jsIncludes c.body "LOL, did you even preview")
  else none

/-- `user.condition && (user.condition.startsWith('Obj:AI:') || user.condition.startsWith('Obj:Com:'))`. -/
def isObjectionCondition (condition : String) : Bool :=
  jsStartsWith condition "Obj:AI:" || jsStartsWith condition "Obj:Com:"

/-- The in-place preparation of a found harassment comment: reset class,
likes/unlikes, pin the time, and set `allowInteractions` by condition. -/
def prepareFoundHarassment (condition : String) (c : Comment) : Comment :=
  let c := { c with cls := "offense1", likes := 0, unlikes := 0 }
  let c := setHarassmentCommentTime c
  { c with allowInteractions := some (isObjectionCondition condition) }

/-- The synthetic harassment comment inserted when none is found and a
fallback actor exists (`commentID: 999`).  Fields the source's object literal
does not set are `none`/`false`. -/
def syntheticHarassmentComment (env : Env) (condition : String) (actor : Actor) : Comment :=
  { cid := none
    commentID := 999
    body := jsOrDefault env.HARASSMENT_COMMENT defaultHarassmentComment
    likes := 0
    unlikes := 0
    actor := actor
    time := -6 * 60 * 60 * 1000
    cls := "offense1"
    removed := false
    allowInteractions := some (isObjectionCondition condition)
    liked := false
    unliked := false
    flagged := false
    new_comment := false
    subcomments := [] }

/-- The shared body of the four `Rem:*` switch cases: replace the body and
class, mark removed, reset counters, clear subcomments, re-pin the time and
swap in the `[deleted]` actor. -/
def applyRemoval (body cls : String) (c : Comment) : Comment :=
  let c := { c with body := body, cls := cls, removed := true,
                    likes := 0, unlikes := 0, subcomments := [] }
  let c := setHarassmentCommentTime c
  setDeletedActor c c.actor

/-- The `Control` switch case body: restore the canonical harassment comment. -/
def applyControl (harassmentComment : String) (c : Comment) : Comment :=
  let c := { c with body := harassmentComment, cls := "offense1", removed := false,
                    likes := 0, unlikes := 0, subcomments := [],
                    allowInteractions := some true }
  setHarassmentCommentTime c

/-- An injected objection subcomment (`commentID: 96`), with the relative
display time `(Date.now() - 3h) - user.createdAt.getTime()`. -/
def objectionSubcomment (oid : Nat) (body cls : String) (actor : Actor)
    (now createdAt : Int) : Subcomment :=
  { sid := some oid
    commentID := 96
    body := body
    likes := 0
    unlikes := 0
    actor := serializeActorForSubcomment actor
    time := (now - 3 * 60 * 60 * 1000) - createdAt
    cls := cls
    new_comment := false
    liked := false
    unliked := false
    flagged := false
    reply_to := none
    parent_comment := none }

/-- Append an objection subcomment under the comment at index `i`. -/
def pushObjection (v : Video) (i : Nat) (s : Subcomment) : Video :=
  { v with comments := (modifyIdx v.comments i
      (fun c => { c with subcomments := c.subcomments ++ [s] })) }

/-- The `switch (user.condition)` dispatch: a JavaScript switch on a string is
a sequential comparison against the case literals, embedded as an
if-then-else chain.  `v2` is the video after location/creation of the
harassment comment, `idx` its index when present. -/
def conditionDispatch (env : Env) (aiBotActor : Option Actor)
    (humanObjectionActors : List Actor) (now : Int) (oid : Nat) (user : User)
    (harassmentComment : String) (v2 : Video) (idx : Option Nat) : Video :=
  if user.condition = "Control" then
    match idx with
    | some i => { v2 with comments := modifyIdx v2.comments i (applyControl harassmentComment) }
    | none => v2
  else if user.condition = "Rem:AI:NoRef" then
    match idx with
    | some i =>
        { v2 with comments := (modifyIdx v2.comments i (applyRemoval
            (jsOrDefault env.REMOVAL_AI_NO_REF
              "This comment is removed. Our botðŸ¤– removed the comment for containing harassing language.")
            "ai_removal_no_ref")) }
    | none => v2
  else if user.condition = "Rem:AI:Ref" then
    match idx with
    | some i =>
        { v2 with comments := (modifyIdx v2.comments i (applyRemoval
            (jsOrDefault env.REMOVAL_AI_REF
              "This comment is removed. Our botðŸ¤– removed this comment for containing harassing language inconsistent with typical community behavior.")
            "ai_removal_community")) }
    | none => v2
  else if user.condition = "Rem:Com:NoRef" then
    match idx with
    | some i =>
        { v2 with comments := (modifyIdx v2.comments i (applyRemoval
            (jsOrDefault env.REMOVAL_COM_NO_REF
              "This comment is removed. Our community memberðŸ™‹ removed the comment for containing harassing language.")
            "community_removal_no_ref")) }
    | none => v2
  else if user.condition = "Rem:Com:Ref" then
    match idx with
    | some i =>
        { v2 with comments := (modifyIdx v2.comments i (applyRemoval
            (jsOrDefault env.REMOVAL_COM_REF
              "This comment is removed. Our community memberðŸ§‘ removed this comment for containing harassing language inconsistent with typical community behavior.")
            "community_removal_community")) }
    | none => v2
  else if user.condition = "Obj:AI:NoRef" then
    match aiBotActor, idx with
    | some bot, some i =>
        pushObjection v2 i (objectionSubcomment oid
          (jsOrDefault env.OBJECTION_AI_NO_REF
            "This comment is offensive toward others. Please remember to stay respectful to each other here.")
          "ai_objection_no_ref" bot now user.createdAt)
    | _, _ => v2
  else if user.condition = "Obj:AI:Ref" then
    match aiBotActor, idx with
    | some bot, some i =>
        pushObjection v2 i (objectionSubcomment oid
          (jsOrDefault env.OBJECTION_AI_REF
            "This comment is offensive toward others. This is not how people typically respond in this community.")
          "ai_objection_community" bot now user.createdAt)
    | _, _ => v2
  else if user.condition = "Obj:Com:NoRef" then
    match humanObjectionActors.head?, idx with
    | some h, some i =>
        pushObjection v2 i (objectionSubcomment oid
          (jsOrDefault env.OBJECTION_COM_NO_REF
            "Please remember to stay respectful to each other here.")
          "human_objection_no_ref" h now user.createdAt)
    | _, _ => v2
  else if user.condition = "Obj:Com:Ref" then
    match humanObjectionActors.head?, idx with
    | some h, some i =>
        pushObjection v2 i (objectionSubcomment oid
          (jsOrDefault env.OBJECTION_COM_REF
            "This comment is offensive toward others. This is not how people typically respond in this community.")
          "human_objection_community" h now user.createdAt)
    | _, _ => v2
  else v2

/-- Embedding of `applyManipulationToFirstVideo`: locate (or synthesize) the
harassment comment, then dispatch on the user condition. -/
def applyManipulationToFirstVideo (env : Env) (actors : List Actor)
    (now : Int) (oid : Nat) (user : User) (firstVideo : Video) : Video :=
  let aiBotActor := actors.find? (fun a => a.username == "VidShare Bot")
  let humanObjectionActors :=
    actors.filter (fun a => a.cls == some "objection" && a.username != "VidShare Bot")
  let harassmentComment := jsOrDefault env.HARASSMENT_COMMENT defaultHarassmentComment
  let idx0 := locateHarassmentIndex firstVideo.comments
  let v1 : Video :=
    match idx0 with
    | some i =>
        { firstVideo with comments := (modifyIdx firstVideo.comments i
            (prepareFoundHarassment user.condition)) }
    | none => firstVideo
  let created : Video × Option Nat :=
    match idx0 with
    | some i => (v1, some i)
    | none =>
        match actors.head? with
        | some harassmentActor =>
            ({ v1 with comments :=
                v1.comments ++ [syntheticHarassmentComment env user.condition harassmentActor] },
             some v1.comments.length)
        | none => (v1, none)
  let v2 := created.1
  let idx := created.2
  if idx.isNone && user.condition != "Control" then v2
  else conditionDispatch env aiBotActor humanObjectionActors now oid user harassmentComment v2 idx

/-- Embedding of `applyExperimentalManipulations`: require exactly 3 videos,
then manipulate only the first. -/
def applyExperimentalManipulations (env : Env) (actors : List Actor)
    (now : Int) (oid : Nat) (user : User) (script_feed : List Video) : List Video :=
  if script_feed.length ≠ 3 then script_feed
  else
    match script_feed with
    | [] => []
    | v0 :: rest => applyManipulationToFirstVideo env actors now oid user v0 :: rest

/-- Re-apply the harassment-comment time across a video (the pass run on all
videos right after manipulation): matches `offense1` comments with the
canonical body, and any removal-class variant. -/
def repinMatches (c : Comment) : Bool :=
  (c.cls == "offense1" && jsIncludes c.body "LOL, did you even preview")
    || (jsIncludes c.cls "removal" || jsIncludes c.cls "ai_removal"
          || jsIncludes c.cls "community_removal")

/-- The per-video body of the re-pinning pass in `getFeed`. -/
def repinHarassmentTimes (v : Video) : Video :=
  { v with comments := (v.comments.map
      (fun c => if repinMatches c then setHarassmentCommentTime c else c)) }

/-- Apply the `liked`/`unliked`/`flagged` deltas of a log entry to an existing
top-level comment. -/
def applyActionToComment (a : ActionedComment) (c : Comment) : Comment :=
  let c := if a.liked then { c with liked := true, likes := c.likes + 1 } else c
  let c := if a.unliked then { c with unliked := true, unlikes := c.unlikes + 1 } else c
  if a.flagged then { c with flagged := true } else c

/-- Apply the `liked`/`unliked`/`flagged` deltas of a log entry to an existing
subcomment. -/
def applyActionToSubcomment (a : ActionedComment) (s : Subcomment) : Subcomment :=
  let s := if a.liked then { s with liked := true, likes := s.likes + 1 } else s
  let s := if a.unliked then { s with unliked := true, unlikes := s.unlikes + 1 } else s
  if a.flagged then { s with flagged := true } else s

/-- The placeholder for the actor field that user-created comment records
never set in the source. -/
def undefinedActor : Actor :=
  { aid := 0, username := "", cls := none,
    profile := { name := "", location := "", bio := "", color := "", picture := "" } }

/-- The `cat` record for a new user reply (`reply_to != null`), buffered in
the reply dictionary. -/
def newReplyRecord (co : ActionedComment) : Subcomment :=
  { sid := none
    commentID := co.new_comment_id
    body := co.body
    likes := if co.liked then 1 else 0
    unlikes := if co.unliked then 1 else 0
    actor := undefinedActor
    time := co.relativeTime
    cls := ""
    new_comment := co.new_comment
    liked := co.liked
    unliked := co.unliked
    flagged := false
    reply_to := co.reply_to
    parent_comment := some co.parent_comment }

/-- The `cat` record for a new top-level user comment, pushed directly onto
the video's comments.  The source's object literal has no `subcomments`
property; `new_comment = true` marks that absence. -/
def newCommentRecord (co : ActionedComment) : Comment :=
  { cid := none
    commentID := co.new_comment_id
    body := co.body
    likes := if co.liked then 1 else 0
    unlikes := if co.unliked then 1 else 0
    actor := undefinedActor
    time := co.relativeTime
    cls := ""
    removed := false
    allowInteractions := none
    liked := co.liked
    unliked := co.unliked
    flagged := false
    new_comment := co.new_comment
    subcomments := [] }

/-- Add a buffered reply under its parent key, preserving JavaScript object
key insertion order. -/
def addToReplyDict (d : List (Int × List Subcomment)) (k : Int) (s : Subcomment) :
    List (Int × List Subcomment) :=
  if d.any (fun p => p.1 == k) then
    d.map (fun p => if p.1 == k then (p.1, p.2 ++ [s]) else p)
  else d ++ [(k, [s])]

/-- One step of the loop over `feedAction[i].comments`: state is the comment
list of the current post plus the reply dictionary. -/
def processActionedComment (st : List Comment × List (Int × List Subcomment))
    (co : ActionedComment) : List Comment × List (Int × List Subcomment) :=
  let comments := st.1
  let dict := st.2
  if co.new_comment then
    match co.reply_to with
    | some _ => (comments, addToReplyDict dict co.parent_comment (newReplyRecord co))
    | none => (comments ++ [newCommentRecord co], dict)
  else
    match comments.findIdx? (fun c => c.cid == some co.comment) with
    | some i => (modifyIdx comments i (applyActionToComment co), dict)
    | none =>
        (comments.map (fun c =>
          match c.subcomments.findIdx? (fun s => s.sid == some co.comment) with
          | some j => { c with subcomments := modifyIdx c.subcomments j (applyActionToSubcomment co) }
          | none => c), dict)

/-- The full loop over a log entry's comment actions. -/
def processComments (fa : FeedAction) (comments : List Comment) :
    List Comment × List (Int × List Subcomment) :=
  fa.comments.foldl processActionedComment (comments, [])

/-- `comments.sort((a, b) => b.time - a.time)`: descending by time. -/
def sortCommentsDesc (cs : List Comment) : List Comment :=
  insertionSort (fun a b => decide (b.time ≤ a.time)) cs

/-- `subcomments.sort((a, b) => a.time - b.time)`: ascending by time. -/
def sortSubcommentsAsc (ss : List Subcomment) : List Subcomment :=
  insertionSort (fun a b => decide (a.time ≤ b.time)) ss

/-- Merge one reply-dictionary entry onto its parent comment.  `none` models
the JavaScript `TypeError` reached when the parent key matches no comment
(`comments[-1]["subcomments"]` on `undefined`) or when the parent is a
user-created comment record, whose missing `subcomments` property would be
`undefined.concat`. -/
def mergeOneReply (comments : List Comment) (k : Int) (v : List Subcomment) :
    Option (List Comment) :=
  match comments.findIdx? (fun c => c.commentID == k) with
  | none => none
  | some i =>
      match comments[i]? with
      | none => none
      | some c =>
          if c.new_comment then none
          else some (comments.set i { c with subcomments := sortSubcommentsAsc (c.subcomments ++ v) })

/-- Merge every reply-dictionary entry, in insertion order. -/
def mergeReplies : List Comment → List (Int × List Subcomment) → Option (List Comment)
  | cs, [] => some cs
  | cs, (k, v) :: rest =>
      match mergeOneReply cs k v with
      | none => none
      | some cs2 => mergeReplies cs2 rest

/-- Replay one post's log entry (the body of the `while` loop in `getFeed`).
Without a matching log entry the post's comments are only sorted. -/
def replayVideo (user : User) (v : Video) : Option Video :=
  match user.feedAction.find? (fun fa => fa.post == v.vid) with
  | some fa =>
      let st := processComments fa v.comments
      let sorted := sortCommentsDesc st.1
      match mergeReplies sorted st.2 with
      | none => none
      | some merged =>
          let v := { v with comments := merged }
          let v := if fa.liked then { v with like := true, likes := v.likes + 1 } else v
          let v := if fa.unliked then { v with unlike := true, unlikes := v.unlikes + 1 } else v
          let v := if fa.flagged then { v with flag := true } else v
          some v
  | none => some { v with comments := sortCommentsDesc v.comments }

/-- Replay the whole feed, post by post. -/
def replayFeed (user : User) : List Video → Option (List Video)
  | [] => some []
  | v :: rest =>
      match replayVideo user v, replayFeed user rest with
      | some w, some ws => some (w :: ws)
      | _, _ => none

/-- The serializer's cross-reference: find the pre-conversion comment with the
same `commentID`, or failing that the same document id. -/
def originalCommentFor (allComments : List Comment) (c : Comment) : Option Comment :=
  allComments.find? (fun c2 =>
    c2.commentID == c.commentID ||
      (match c2.cid, c.cid with
       | some a, some b => a == b
       | _, _ => false))

/-- Preserve `allowInteractions` across serialization: copied from the
cross-referenced original only when defined there. -/
def serializeComment (allComments : List Comment) (c : Comment) : Comment :=
  match originalCommentFor allComments c with
  | some orig =>
      if orig.allowInteractions.isSome then { c with allowInteractions := orig.allowInteractions }
      else c
  | none => c

/-- Per-post serialization; `toObject` and the actor/profile normalizations
are the identity in this embedding, leaving the `allowInteractions`
cross-reference as the only effective step. -/
def serializePost (post : Video) : Video :=
  { post with comments := post.comments.map (serializeComment post.comments) }

/-- The last pass before returning: re-pin any comment still tagged
`offense1` whose body matches the canonical harassment text. -/
def finalPinMatches (c : Comment) : Bool :=
  c.cls == "offense1" && jsIncludes c.body "LOL, did you even preview"

/-- Per-post final pinning pass. -/
def finalPinPass (v : Video) : Video :=
  { v with comments := (v.comments.map
      (fun c => if finalPinMatches c then setHarassmentCommentTime c else c)) }

/-- Ascending order on `postID` (both the initial query sort and the final
feed sort). -/
def lePostID (a b : Video) : Bool :=
  decide (a.postID ≤ b.postID)

/-- Embedding of `exports.getFeed`: load the user's script videos, manipulate,
re-pin, replay the action log, order by `postID` and serialize.  `none`
models the `TypeError` described at `mergeOneReply`. -/
def getFeed (scripts : List Video) (actors : List Actor) (env : Env)
    (now : Int) (oid : Nat) (user : User) : Option (List Video) :=
  let script_feed := insertionSort lePostID (scripts.filter (fun v => v.cls == user.interest))
  let script_feed := applyExperimentalManipulations env actors now oid user script_feed
  let script_feed := script_feed.map repinHarassmentTimes
  match replayFeed user script_feed with
  | none => none
  | some finalfeed =>
      some ((insertionSort lePostID finalfeed).map (fun p => finalPinPass (serializePost p)))

/-- Embedding of `exports.getTutorial`: for the 3-video design the tutorial
feed is the main feed. -/
def getTutorial (scripts : List Video) (actors : List Actor) (env : Env)
    (now : Int) (oid : Nat) (user : User) : Option (List Video) :=
  getFeed scripts actors env now oid user

/-- The shared persistent stores the feed core reads. -/
structure Store where
  scripts : List Video
  actors : List Actor
deriving Repr, DecidableEq

/-- State-passing form of `getFeed` over the shared stores.  The source's only
store operations are the read queries `Script.find`, `Actor.findOne` and
`Actor.find` (there is no `save`, `update` or delete anywhere on the feed
path), so the store component passes through unchanged. -/
def getFeedS (store : Store) (env : Env) (now : Int) (oid : Nat) (user : User) :
    Store × Option (List Video) :=
  (store, getFeed store.scripts store.actors env now oid user)

/-- Inserting into a list permutes consing onto it. -/
theorem insertSorted_perm (le : α → α → Bool) (a : α) (l : List α) :
    (insertSorted le a l).Perm (a :: l) := by
  induction l with
  | nil => exact List.Perm.refl _
  | cons b t ih =>
      simp only [insertSorted]
      by_cases h : le a b
      · simp [h]
      · simp only [if_neg h]
        exact (ih.cons b).trans (List.Perm.swap a b t)

/-- The stable sort permutes its input. -/
theorem insertionSort_perm (le : α → α → Bool) (l : List α) :
    (insertionSort le l).Perm l := by
  induction l with
  | nil => exact List.Perm.refl _
  | cons a t ih =>
      exact (insertSorted_perm le a (insertionSort le t)).trans (ih.cons a)

/-- Inserting into a sorted list keeps it sorted (for a total, transitive
comparison). -/
theorem insertSorted_pairwise {le : α → α → Bool}
    (htrans : ∀ a b c, le a b = true → le b c = true → le a c = true)
    (htot : ∀ a b, le a b = true ∨ le b a = true) (a : α) {l : List α}
    (h : l.Pairwise (fun x y => le x y = true)) :
    (insertSorted le a l).Pairwise (fun x y => le x y = true) := by
  induction l with
  | nil => simp [insertSorted]
  | cons b t ih =>
      rcases List.pairwise_cons.mp h with ⟨hb, ht⟩
      simp only [insertSorted]
      by_cases hab : le a b
      · simp only [if_pos hab]
        refine List.pairwise_cons.mpr ⟨?_, h⟩
        intro y hy
        rcases List.mem_cons.mp hy with rfl | hyt
        · exact hab
        · exact htrans a b y hab (hb y hyt)
      · simp only [if_neg hab]
        have hba : le b a = true := (htot a b).resolve_left hab
        refine List.pairwise_cons.mpr ⟨?_, ih ht⟩
        intro y hy
        have : y ∈ a :: t := (insertSorted_perm le a t).mem_iff.mp hy
        rcases List.mem_cons.mp this with rfl | hyt
        · exact hba
        · exact hb y hyt

/-- The stable sort sorts (for a total, transitive comparison). -/
theorem insertionSort_pairwise {le : α → α → Bool}
    (htrans : ∀ a b c, le a b = true → le b c = true → le a c = true)
    (htot : ∀ a b, le a b = true ∨ le b a = true) (l : List α) :
    (insertionSort le l).Pairwise (fun x y => le x y = true) := by
  induction l with
  | nil => simp [insertionSort]
  | cons a t ih => exact insertSorted_pairwise htrans htot a ih

/-- Inserting below the head of a list is a plain cons. -/
theorem insertSorted_eq_cons (le : α → α → Bool) (a : α) (l : List α)
    (h : ∀ b ∈ l.head?, le a b = true) : insertSorted le a l = a :: l := by
  cases l with
  | nil => rfl
  | cons b t => simp only [insertSorted, if_pos (h b rfl)]

/-- Sorting an already-sorted list is the identity. -/
theorem insertionSort_of_pairwise {le : α → α → Bool} {l : List α}
    (h : l.Pairwise (fun x y => le x y = true)) : insertionSort le l = l := by
  induction l with
  | nil => rfl
  | cons a t ih =>
      rcases List.pairwise_cons.mp h with ⟨ha, ht⟩
      rw [insertionSort, ih ht]
      exact insertSorted_eq_cons le a t (fun b hb => ha b (List.mem_of_mem_head? hb))

/-- `charsContain` decides the contiguous-substring relation. -/
theorem charsContain_iff (pat : List Char) (l : List Char) :
    charsContain pat l = true ↔ pat <:+: l := by
  induction l with
  | nil =>
      simp only [charsContain, List.isEmpty_iff, List.infix_nil]
  | cons c rest ih =>
      simp only [charsContain, Bool.or_eq_true, List.isPrefixOf_iff_prefix, ih,
        List.infix_cons_iff]

/-- A string containing a larger pattern contains any contiguous piece of it. -/
theorem jsIncludes_of_sub {s a b : String} (hab : a.toList <:+: b.toList)
    (h : jsIncludes s b = true) : jsIncludes s a = true := by
  rw [jsIncludes, charsContain_iff] at h ⊢
  exact hab.trans h

/-- A comment whose display time is the pinned -6h harassment offset. -/
def timePinned (c : Comment) : Bool :=
  c.time == HARASSMENT_TIME_OFFSET

/-- A comment that none of the pinning passes can ever start pinning: not
tagged `offense1`, not carrying a removal class, and not already at the
pinned time. -/
@[reducible] def inertComment (c : Comment) : Prop :=
  c.cls ≠ "offense1" ∧ jsIncludes c.cls "removal" = false ∧ c.time ≠ HARASSMENT_TIME_OFFSET

/-- Invariant: exactly one comment sits at the pinned -6h time, and every
other comment is inert for the pinning passes. -/
def OnePinnedInv (cs : List Comment) : Prop :=
  cs.countP timePinned = 1 ∧ ∀ c ∈ cs, timePinned c = false → inertComment c

theorem timePinned_iff {c : Comment} : timePinned c = true ↔ c.time = HARASSMENT_TIME_OFFSET := by
  simp [timePinned]

theorem timePinned_false_iff {c : Comment} :
    timePinned c = false ↔ c.time ≠ HARASSMENT_TIME_OFFSET := by
  simp [timePinned]

/-- `modifyIdx` at a valid index is a `set` of the transformed element. -/
theorem modifyIdx_eq_set {l : List α} {i : Nat} (h : i < l.length) (f : α → α) :
    modifyIdx l i f = l.set i (f l[i]) := by
  simp [modifyIdx, List.getElem?_eq_getElem h]

/-- `modifyIdx` beyond the end is the identity. -/
theorem modifyIdx_eq_of_ge {l : List α} {i : Nat} (h : l.length ≤ i) (f : α → α) :
    modifyIdx l i f = l := by
  simp [modifyIdx, List.getElem?_eq_none h]

/-- The invariant is preserved by any per-comment map that keeps `time` and
`cls`. -/
theorem onePinnedInv_map {g : Comment → Comment}
    (hg : ∀ c, (g c).time = c.time ∧ (g c).cls = c.cls) {cs : List Comment}
    (h : OnePinnedInv cs) : OnePinnedInv (cs.map g) := by
  have hpin : ∀ c, timePinned (g c) = timePinned c := by
    intro c; simp [timePinned, (hg c).1]
  constructor
  · rw [List.countP_map]
    have := @List.countP_congr Comment (timePinned ∘ g) timePinned cs
      (fun c _ => by simp [Function.comp, hpin c])
    rw [this]; exact h.1
  · intro c hc hfalse
    rcases List.mem_map.mp hc with ⟨c₀, hc₀, rfl⟩
    have h₀ : timePinned c₀ = false := by rw [← hpin c₀]; exact hfalse
    rcases h.2 c₀ hc₀ h₀ with ⟨h1, h2, h3⟩
    exact ⟨by rw [(hg c₀).2]; exact h1, by rw [(hg c₀).2]; exact h2, by rw [(hg c₀).1]; exact h3⟩

/-- The invariant is preserved by a conditional pinning map whose predicate
is false on inert comments. -/
theorem onePinnedInv_map_pin {q : Comment → Bool}
    (hq : ∀ c, inertComment c → q c = false) {cs : List Comment}
    (h : OnePinnedInv cs) :
    OnePinnedInv (cs.map (fun c => if q c then setHarassmentCommentTime c else c)) := by
  have hpin : ∀ c ∈ cs, timePinned (if q c then setHarassmentCommentTime c else c) = timePinned c := by
    intro c hc
    cases hp : timePinned c with
    | false =>
        rw [hq c (h.2 c hc hp)]
        simpa using hp
    | true =>
        by_cases hqc : q c
        · simp [hqc, timePinned, setHarassmentCommentTime]
        · simpa [hqc] using hp
  constructor
  · rw [List.countP_map]
    have := @List.countP_congr Comment
      (timePinned ∘ fun c => if q c then setHarassmentCommentTime c else c)
      timePinned cs (fun c hc => by simp [Function.comp, hpin c hc])
    rw [this]; exact h.1
  · intro c hc hfalse
    rcases List.mem_map.mp hc with ⟨c₀, hc₀, rfl⟩
    have h₀ : timePinned c₀ = false := by rw [← hpin c₀ hc₀]; exact hfalse
    have hin := h.2 c₀ hc₀ h₀
    rw [hq c₀ hin] at hfalse ⊢
    simpa using hin

/-- The invariant is preserved by replacing one element with one that keeps
its `time` and `cls`. -/
theorem onePinnedInv_set {cs : List Comment} {i : Nat} {c' : Comment} (hlen : i < cs.length)
    (ht : c'.time = cs[i].time) (hcls : c'.cls = cs[i].cls)
    (h : OnePinnedInv cs) : OnePinnedInv (cs.set i c') := by
  have hpin : timePinned c' = timePinned cs[i] := by simp [timePinned, ht]
  constructor
  · rw [List.countP_set _ _ _ _ hlen, hpin]
    cases hp : timePinned cs[i] <;> simp [hp, h.1]
  · intro c hc hfalse
    rcases List.mem_iff_getElem.mp hc with ⟨j, hj, rfl⟩
    have hj' : j < cs.length := by simpa using hj
    by_cases hij : j = i
    · subst hij
      rw [List.getElem_set_self] at hfalse ⊢
      have hfi : timePinned cs[j] = false := by rw [← hpin]; exact hfalse
      have hin := h.2 cs[j] (List.getElem_mem hj') hfi
      exact ⟨by rw [hcls]; exact hin.1, by rw [hcls]; exact hin.2.1, by rw [ht]; exact hin.2.2⟩
    · rw [List.getElem_set_ne (fun hh => hij hh.symm) hj] at hfalse ⊢
      exact h.2 cs[j] (List.getElem_mem hj') hfalse

/-- The invariant is preserved by appending an inert comment. -/
theorem onePinnedInv_append_inert {cs : List Comment} {c : Comment}
    (hin : inertComment c) (h : OnePinnedInv cs) : OnePinnedInv (cs ++ [c]) := by
  constructor
  · rw [List.countP_append, List.countP_cons, List.countP_nil]
    have : timePinned c = false := timePinned_false_iff.mpr hin.2.2
    simp [this, h.1]
  · intro d hd hfalse
    rcases List.mem_append.mp hd with hd | hd
    · exact h.2 d hd hfalse
    · rcases List.mem_singleton.mp hd with rfl
      exact hin

/-- The invariant transports along permutations. -/
theorem onePinnedInv_perm {cs cs' : List Comment} (hp : cs.Perm cs')
    (h : OnePinnedInv cs) : OnePinnedInv cs' :=
  ⟨(hp.countP_eq timePinned).symm.trans h.1,
   fun c hc hfalse => h.2 c (hp.mem_iff.mpr hc) hfalse⟩

/-- A located harassment index is inside the comment list. -/
theorem locateHarassmentIndex_lt {cs : List Comment} {i : Nat}
    (h : locateHarassmentIndex cs = some i) : i < cs.length := by
  unfold locateHarassmentIndex at h
  by_cases hlen : cs.length > 0
  · rw [if_pos hlen] at h
    cases hfind : cs.findIdx? (fun c => c.cls == "offense1") with
    | some j =>
        rw [hfind] at h
        cases h
        exact (List.findIdx?_eq_some_iff_findIdx_eq.mp hfind).1
    | none =>
        rw [hfind] at h
        exact (List.findIdx?_eq_some_iff_findIdx_eq.mp h).1
  · rw [if_neg hlen] at h
    cases h

theorem prepareFoundHarassment_time (cond : String) (c : Comment) :
    (prepareFoundHarassment cond c).time = HARASSMENT_TIME_OFFSET := rfl

theorem applyControl_time (h : String) (c : Comment) :
    (applyControl h c).time = HARASSMENT_TIME_OFFSET := rfl

theorem applyRemoval_time (b k : String) (c : Comment) :
    (applyRemoval b k c).time = HARASSMENT_TIME_OFFSET := rfl

/-- Editing the element just written by `set` collapses into one `set`. -/
theorem modifyIdx_set_self {cs : List α} {i : Nat} (hi : i < cs.length) (a : α) (g : α → α) :
    modifyIdx (cs.set i a) i g = cs.set i (g a) := by
  have hi' : i < (cs.set i a).length := by simpa using hi
  rw [modifyIdx_eq_set hi', List.getElem_set_self, List.set_set]

theorem conditionDispatch_control {env bot humans now oid user h v2 i}
    (hc : user.condition = "Control") :
    conditionDispatch env bot humans now oid user h v2 (some i)
      = { v2 with comments := modifyIdx v2.comments i (applyControl h) } := by
  unfold conditionDispatch
  rw [if_pos hc]

theorem conditionDispatch_remAINoRef {env bot humans now oid user h v2 i}
    (hc : user.condition = "Rem:AI:NoRef") :
    conditionDispatch env bot humans now oid user h v2 (some i)
      = { v2 with comments := (modifyIdx v2.comments i (applyRemoval
            (jsOrDefault env.REMOVAL_AI_NO_REF
              "This comment is removed. Our botðŸ¤– removed the comment for containing harassing language.")
            "ai_removal_no_ref")) } := by
  unfold conditionDispatch
  rw [if_neg (by simp [hc]), if_pos hc]

theorem conditionDispatch_remAIRef {env bot humans now oid user h v2 i}
    (hc : user.condition = "Rem:AI:Ref") :
    conditionDispatch env bot humans now oid user h v2 (some i)
      = { v2 with comments := (modifyIdx v2.comments i (applyRemoval
            (jsOrDefault env.REMOVAL_AI_REF
              "This comment is removed. Our botðŸ¤– removed this comment for containing harassing language inconsistent with typical community behavior.")
            "ai_removal_community")) } := by
  unfold conditionDispatch
  rw [if_neg (by simp [hc]), if_neg (by simp [hc]), if_pos hc]

theorem conditionDispatch_remComNoRef {env bot humans now oid user h v2 i}
    (hc : user.condition = "Rem:Com:NoRef") :
    conditionDispatch env bot humans now oid user h v2 (some i)
      = { v2 with comments := (modifyIdx v2.comments i (applyRemoval
            (jsOrDefault env.REMOVAL_COM_NO_REF
              "This comment is removed. Our community memberðŸ™‹ removed the comment for containing harassing language.")
            "community_removal_no_ref")) } := by
  unfold conditionDispatch
  rw [if_neg (by simp [hc]), if_neg (by simp [hc]), if_neg (by simp [hc]), if_pos hc]

theorem conditionDispatch_remComRef {env bot humans now oid user h v2 i}
    (hc : user.condition = "Rem:Com:Ref") :
    conditionDispatch env bot humans now oid user h v2 (some i)
      = { v2 with comments := (modifyIdx v2.comments i (applyRemoval
            (jsOrDefault env.REMOVAL_COM_REF
              "This comment is removed. Our community memberðŸ§‘ removed this comment for containing harassing language inconsistent with typical community behavior.")
            "community_removal_community")) } := by
  unfold conditionDispatch
  rw [if_neg (by simp [hc]), if_neg (by simp [hc]), if_neg (by simp [hc]),
    if_neg (by simp [hc]), if_pos hc]

theorem conditionDispatch_objAINoRef {env bot humans now oid user h v2 i}
    (hc : user.condition = "Obj:AI:NoRef") :
    conditionDispatch env bot humans now oid user h v2 (some i)
      = match bot with
        | some b =>
            pushObjection v2 i (objectionSubcomment oid
              (jsOrDefault env.OBJECTION_AI_NO_REF
                "This comment is offensive toward others. Please remember to stay respectful to each other here.")
              "ai_objection_no_ref" b now user.createdAt)
        | none => v2 := by
  unfold conditionDispatch
  rw [if_neg (by simp [hc]), if_neg (by simp [hc]), if_neg (by simp [hc]),
    if_neg (by simp [hc]), if_neg (by simp [hc]), if_pos hc]
  cases bot <;> rfl

theorem conditionDispatch_objAIRef {env bot humans now oid user h v2 i}
    (hc : user.condition = "Obj:AI:Ref") :
    conditionDispatch env bot humans now oid user h v2 (some i)
      = match bot with
        | some b =>
            pushObjection v2 i (objectionSubcomment oid
              (jsOrDefault env.OBJECTION_AI_REF
                "This comment is offensive toward others. This is not how people typically respond in this community.")
              "ai_objection_community" b now user.createdAt)
        | none => v2 := by
  unfold conditionDispatch
  rw [if_neg (by simp [hc]), if_neg (by simp [hc]), if_neg (by simp [hc]),
    if_neg (by simp [hc]), if_neg (by simp [hc]), if_neg (by simp [hc]), if_pos hc]
  cases bot <;> rfl

theorem conditionDispatch_objComNoRef {env bot humans now oid user h v2 i}
    (hc : user.condition = "Obj:Com:NoRef") :
    conditionDispatch env bot humans now oid user h v2 (some i)
      = match humans.head? with
        | some hd =>
            pushObjection v2 i (objectionSubcomment oid
              (jsOrDefault env.OBJECTION_COM_NO_REF
                "Please remember to stay respectful to each other here.")
              "human_objection_no_ref" hd now user.createdAt)
        | none => v2 := by
  unfold conditionDispatch
  rw [if_neg (by simp [hc]), if_neg (by simp [hc]), if_neg (by simp [hc]),
    if_neg (by simp [hc]), if_neg (by simp [hc]), if_neg (by simp [hc]),
    if_neg (by simp [hc]), if_pos hc]
  cases humans.head? <;> rfl

theorem conditionDispatch_objComRef {env bot humans now oid user h v2 i}
    (hc : user.condition = "Obj:Com:Ref") :
    conditionDispatch env bot humans now oid user h v2 (some i)
      = match humans.head? with
        | some hd =>
            pushObjection v2 i (objectionSubcomment oid
              (jsOrDefault env.OBJECTION_COM_REF
                "This comment is offensive toward others. This is not how people typically respond in this community.")
              "human_objection_community" hd now user.createdAt)
        | none => v2 := by
  unfold conditionDispatch
  rw [if_neg (by simp [hc]), if_neg (by simp [hc]), if_neg (by simp [hc]),
    if_neg (by simp [hc]), if_neg (by simp [hc]), if_neg (by simp [hc]),
    if_neg (by simp [hc]), if_neg (by simp [hc]), if_pos hc]
  cases humans.head? <;> rfl

/-- The nine condition tags of the experiment. -/
def NINE_CONDITIONS : List String :=
  ["Control", "Rem:AI:NoRef", "Rem:AI:Ref", "Rem:Com:NoRef", "Rem:Com:Ref",
   "Obj:AI:NoRef", "Obj:AI:Ref", "Obj:Com:NoRef", "Obj:Com:Ref"]

/-- The four objection condition tags. -/
def OBJ_CONDITIONS : List String :=
  ["Obj:AI:NoRef", "Obj:AI:Ref", "Obj:Com:NoRef", "Obj:Com:Ref"]

/-- The four removal condition tags. -/
def REM_CONDITIONS : List String :=
  ["Rem:AI:NoRef", "Rem:AI:Ref", "Rem:Com:NoRef", "Rem:Com:Ref"]

theorem conditionDispatch_default {env bot humans now oid user h v2 idx}
    (hc : user.condition ∉ NINE_CONDITIONS) :
    conditionDispatch env bot humans now oid user h v2 idx = v2 := by
  simp only [NINE_CONDITIONS, List.mem_cons, List.not_mem_nil, or_false, not_or] at hc
  obtain ⟨h1, h2, h3, h4, h5, h6, h7, h8, h9⟩ := hc
  unfold conditionDispatch
  rw [if_neg h1, if_neg h2, if_neg h3, if_neg h4, if_neg h5, if_neg h6, if_neg h7,
    if_neg h8, if_neg h9]

/-- When the harassment comment is located, the manipulation reduces to the
dispatch applied after the in-place preparation at that index. -/
theorem manip_eq_dispatch {env : Env} {actors : List Actor} {now : Int} {oid : Nat}
    {user : User} {v : Video} {i : Nat}
    (hloc : locateHarassmentIndex v.comments = some i) :
    applyManipulationToFirstVideo env actors now oid user v
      = conditionDispatch env (actors.find? (fun a => a.username == "VidShare Bot"))
          (actors.filter (fun a => a.cls == some "objection" && a.username != "VidShare Bot"))
          now oid user (jsOrDefault env.HARASSMENT_COMMENT defaultHarassmentComment)
          { v with comments := (v.comments.set i
              (prepareFoundHarassment user.condition
                (v.comments.get ⟨i, locateHarassmentIndex_lt hloc⟩))) }
          (some i) := by
  have hi : i < v.comments.length := locateHarassmentIndex_lt hloc
  simp only [applyManipulationToFirstVideo, hloc, modifyIdx_eq_set hi, Option.isNone_some,
    Bool.false_and, Bool.false_eq_true, if_false]
  rfl

/-- When the harassment comment is located, manipulation only replaces the
comment at the located index, and the replacement sits at the pinned time. -/
theorem manip_comments_eq {env : Env} {actors : List Actor} {now : Int} {oid : Nat}
    {user : User} {v : Video} {i : Nat}
    (hloc : locateHarassmentIndex v.comments = some i) :
    ∃ c', applyManipulationToFirstVideo env actors now oid user v
        = { v with comments := v.comments.set i c' }
      ∧ c'.time = HARASSMENT_TIME_OFFSET := by
  have hi : i < v.comments.length := locateHarassmentIndex_lt hloc
  rw [manip_eq_dispatch hloc]
  set P := prepareFoundHarassment user.condition (v.comments.get ⟨i, hi⟩) with hP
  have hPtime : P.time = HARASSMENT_TIME_OFFSET := prepareFoundHarassment_time _ _
  by_cases h1 : user.condition = "Control"
  · rw [conditionDispatch_control h1]
    simp only [modifyIdx_set_self hi]
    exact ⟨_, rfl, applyControl_time _ _⟩
  by_cases h2 : user.condition = "Rem:AI:NoRef"
  · rw [conditionDispatch_remAINoRef h2]
    simp only [modifyIdx_set_self hi]
    exact ⟨_, rfl, applyRemoval_time _ _ _⟩
  by_cases h3 : user.condition = "Rem:AI:Ref"
  · rw [conditionDispatch_remAIRef h3]
    simp only [modifyIdx_set_self hi]
    exact ⟨_, rfl, applyRemoval_time _ _ _⟩
  by_cases h4 : user.condition = "Rem:Com:NoRef"
  · rw [conditionDispatch_remComNoRef h4]
    simp only [modifyIdx_set_self hi]
    exact ⟨_, rfl, applyRemoval_time _ _ _⟩
  by_cases h5 : user.condition = "Rem:Com:Ref"
  · rw [conditionDispatch_remComRef h5]
    simp only [modifyIdx_set_self hi]
    exact ⟨_, rfl, applyRemoval_time _ _ _⟩
  by_cases h6 : user.condition = "Obj:AI:NoRef"
  · rw [conditionDispatch_objAINoRef h6]
    cases List.find? (fun a => a.username == "VidShare Bot") actors with
    | some b =>
        simp only [pushObjection, modifyIdx_set_self hi]
        exact ⟨_, rfl, hPtime⟩
    | none => exact ⟨P, rfl, hPtime⟩
  by_cases h7 : user.condition = "Obj:AI:Ref"
  · rw [conditionDispatch_objAIRef h7]
    cases List.find? (fun a => a.username == "VidShare Bot") actors with
    | some b =>
        simp only [pushObjection, modifyIdx_set_self hi]
        exact ⟨_, rfl, hPtime⟩
    | none => exact ⟨P, rfl, hPtime⟩
  by_cases h8 : user.condition = "Obj:Com:NoRef"
  · rw [conditionDispatch_objComNoRef h8]
    cases (List.filter (fun a => a.cls == some "objection" && a.username != "VidShare Bot") actors).head? with
    | some hd =>
        simp only [pushObjection, modifyIdx_set_self hi]
        exact ⟨_, rfl, hPtime⟩
    | none => exact ⟨P, rfl, hPtime⟩
  by_cases h9 : user.condition = "Obj:Com:Ref"
  · rw [conditionDispatch_objComRef h9]
    cases (List.filter (fun a => a.cls == some "objection" && a.username != "VidShare Bot") actors).head? with
    | some hd =>
        simp only [pushObjection, modifyIdx_set_self hi]
        exact ⟨_, rfl, hPtime⟩
    | none => exact ⟨P, rfl, hPtime⟩
  · rw [conditionDispatch_default (by
      simp only [NINE_CONDITIONS, List.mem_cons, List.not_mem_nil, or_false, not_or]
      exact ⟨h1, h2, h3, h4, h5, h6, h7, h8, h9⟩)]
    exact ⟨P, rfl, hPtime⟩

/-- A list whose predicate can only hold at index `i` has count given by the
value there. -/
theorem countP_eq_of_unique {l : List α} {p : α → Bool} {i : Nat} (hi : i < l.length)
    (hothers : ∀ j (hj : j < l.length), j ≠ i → p l[j] = false) :
    l.countP p = if p l[i] then 1 else 0 := by
  induction l generalizing i with
  | nil => simp at hi
  | cons a t ih =>
      cases i with
      | zero =>
          have ht : t.countP p = 0 := by
            rw [List.countP_eq_zero]
            intro x hx
            rcases List.mem_iff_getElem.mp hx with ⟨j, hj, rfl⟩
            have := hothers (j + 1) (by simpa using Nat.succ_lt_succ hj) (Nat.succ_ne_zero j)
            simpa using this
          simp [List.countP_cons, ht]
      | succ k =>
          have ha : p a = false := by
            have := hothers 0 (Nat.succ_pos _) (Nat.noConfusion)
            simpa using this
          have hk : k < t.length := Nat.lt_of_succ_lt_succ hi
          have ih' := ih hk (fun j hj hne => by
            have := hothers (j + 1) (by simpa using Nat.succ_lt_succ hj)
              (fun hh => hne (Nat.succ_injective hh))
            simpa using this)
          simp [List.countP_cons, ha, ih']

/-- Setting a pinned comment at `i` into a list whose other entries are inert
establishes the invariant. -/
theorem onePinnedInv_establish {cs : List Comment} {i : Nat} {c' : Comment}
    (hi : i < cs.length) (hpin : timePinned c' = true)
    (hothers : ∀ j (hj : j < cs.length), j ≠ i → inertComment cs[j]) :
    OnePinnedInv (cs.set i c') := by
  have hcount : cs.countP timePinned = if timePinned cs[i] then 1 else 0 :=
    countP_eq_of_unique hi (fun j hj hne =>
      timePinned_false_iff.mpr (hothers j hj hne).2.2)
  constructor
  · rw [List.countP_set _ _ _ _ hi, hcount, hpin]
    cases timePinned cs[i] <;> simp
  · intro c hc hfalse
    rcases List.mem_iff_getElem.mp hc with ⟨j, hj, rfl⟩
    have hj' : j < cs.length := by simpa using hj
    by_cases hij : j = i
    · subst hij
      rw [List.getElem_set_self] at hfalse
      rw [hpin] at hfalse
      cases hfalse
    · rw [List.getElem_set_ne (fun hh => hij hh.symm) hj]
      exact hothers j hj' hij

/-- After a located manipulation over inert neighbours the invariant holds. -/
theorem manip_onePinnedInv {env : Env} {actors : List Actor} {now : Int} {oid : Nat}
    {user : User} {v : Video} {i : Nat}
    (hloc : locateHarassmentIndex v.comments = some i)
    (hothers : ∀ j (hj : j < v.comments.length), j ≠ i → inertComment v.comments[j]) :
    OnePinnedInv (applyManipulationToFirstVideo env actors now oid user v).comments := by
  obtain ⟨c', heq, ht⟩ := manip_comments_eq hloc
  rw [heq]
  exact onePinnedInv_establish (locateHarassmentIndex_lt hloc) (timePinned_iff.mpr ht) hothers

/-- Inert comments never match the post-manipulation re-pinning pass. -/
theorem repinMatches_false_of_inert {c : Comment} (h : inertComment c) :
    repinMatches c = false := by
  rcases h with ⟨h1, h2, _⟩
  have hcls : (c.cls == "offense1") = false := by
    simpa using h1
  have hai : jsIncludes c.cls "ai_removal" = false := by
    by_contra hh
    have hinc : jsIncludes c.cls "ai_removal" = true := by
      cases hv : jsIncludes c.cls "ai_removal"
      · exact absurd hv hh
      · rfl
    have hsub : ("removal".toList : List Char) <:+: "ai_removal".toList :=
      (charsContain_iff _ _).mp (by decide)
    have := jsIncludes_of_sub hsub hinc
    rw [this] at h2
    cases h2
  have hcom : jsIncludes c.cls "community_removal" = false := by
    by_contra hh
    have hinc : jsIncludes c.cls "community_removal" = true := by
      cases hv : jsIncludes c.cls "community_removal"
      · exact absurd hv hh
      · rfl
    have hsub : ("removal".toList : List Char) <:+: "community_removal".toList :=
      (charsContain_iff _ _).mp (by decide)
    have := jsIncludes_of_sub hsub hinc
    rw [this] at h2
    cases h2
  simp [repinMatches, hcls, h2, hai, hcom]

/-- Inert comments never match the last pinning pass. -/
theorem finalPinMatches_false_of_inert {c : Comment} (h : inertComment c) :
    finalPinMatches c = false := by
  have hcls : (c.cls == "offense1") = false := by simpa using h.1
  simp [finalPinMatches, hcls]

/-- The re-pinning pass preserves the invariant. -/
theorem repin_onePinnedInv {v : Video} (h : OnePinnedInv v.comments) :
    OnePinnedInv (repinHarassmentTimes v).comments :=
  onePinnedInv_map_pin (fun _ hc => repinMatches_false_of_inert hc) h

/-- The final pinning pass preserves the invariant. -/
theorem finalPin_onePinnedInv {v : Video} (h : OnePinnedInv v.comments) :
    OnePinnedInv (finalPinPass v).comments :=
  onePinnedInv_map_pin (fun _ hc => finalPinMatches_false_of_inert hc) h

/-- Applying log deltas keeps a comment's time and class. -/
theorem applyActionToComment_time_cls (a : ActionedComment) (c : Comment) :
    (applyActionToComment a c).time = c.time ∧ (applyActionToComment a c).cls = c.cls := by
  unfold applyActionToComment
  cases a.liked <;> cases a.unliked <;> cases a.flagged <;> simp

/-- The serialization step keeps a comment's time and class. -/
theorem serializeComment_time_cls (allComments : List Comment) (c : Comment) :
    (serializeComment allComments c).time = c.time
      ∧ (serializeComment allComments c).cls = c.cls := by
  unfold serializeComment
  cases originalCommentFor allComments c with
  | none => exact ⟨rfl, rfl⟩
  | some orig =>
      by_cases h : orig.allowInteractions.isSome <;> simp [h]

/-- Serialization preserves the invariant. -/
theorem serialize_onePinnedInv {v : Video} (h : OnePinnedInv v.comments) :
    OnePinnedInv (serializePost v).comments :=
  onePinnedInv_map (serializeComment_time_cls v.comments) h

/-- New top-level user comments are inert for the pinning passes whenever
their relative time is away from the pinned offset. -/
theorem newCommentRecord_inert {co : ActionedComment}
    (hco : co.relativeTime ≠ HARASSMENT_TIME_OFFSET) :
    inertComment (newCommentRecord co) := by
  refine ⟨?_, ?_, hco⟩
  · show ("" : String) ≠ "offense1"
    decide
  · show jsIncludes "" "removal" = false
    rfl

/-- One replay step preserves the invariant. -/
theorem processActionedComment_inv {st : List Comment × List (Int × List Subcomment)}
    {co : ActionedComment} (hco : co.relativeTime ≠ HARASSMENT_TIME_OFFSET)
    (h : OnePinnedInv st.1) : OnePinnedInv (processActionedComment st co).1 := by
  unfold processActionedComment
  by_cases hnew : co.new_comment = true
  · rw [if_pos hnew]
    cases hr : co.reply_to with
    | some r => exact h
    | none => exact onePinnedInv_append_inert (newCommentRecord_inert hco) h
  · rw [if_neg hnew]
    cases hfind : st.1.findIdx? (fun c => c.cid == some co.comment) with
    | some i =>
        have hi : i < st.1.length := (List.findIdx?_eq_some_iff_findIdx_eq.mp hfind).1
        simp only
        rw [modifyIdx_eq_set hi]
        exact onePinnedInv_set hi (applyActionToComment_time_cls co _).1
          (applyActionToComment_time_cls co _).2 h
    | none =>
        simp only
        refine onePinnedInv_map ?_ h
        intro c
        cases hfind2 : c.subcomments.findIdx? (fun s => s.sid == some co.comment) with
        | some j => simp [hfind2]
        | none => simp [hfind2]

/-- The whole replay loop preserves the invariant. -/
theorem foldl_process_inv {l : List ActionedComment}
    {st : List Comment × List (Int × List Subcomment)}
    (hl : ∀ co ∈ l, co.relativeTime ≠ HARASSMENT_TIME_OFFSET)
    (h : OnePinnedInv st.1) :
    OnePinnedInv (l.foldl processActionedComment st).1 := by
  induction l generalizing st with
  | nil => simpa using h
  | cons a t ih =>
      rw [List.foldl_cons]
      exact ih (fun co hco => hl co (List.mem_cons_of_mem a hco))
        (processActionedComment_inv (hl a (List.mem_cons_self a t)) h)

/-- One reply merge preserves the invariant. -/
theorem mergeOneReply_inv {cs : List Comment} {k : Int} {rs : List Subcomment}
    {cs' : List Comment} (h : mergeOneReply cs k rs = some cs')
    (hinv : OnePinnedInv cs) : OnePinnedInv cs' := by
  unfold mergeOneReply at h
  cases hfind : cs.findIdx? (fun c => c.commentID == k) with
  | none => rw [hfind] at h; cases h
  | some i =>
      have hi : i < cs.length := (List.findIdx?_eq_some_iff_findIdx_eq.mp hfind).1
      rw [hfind] at h
      simp only [List.getElem?_eq_getElem hi] at h
      by_cases hn : cs[i].new_comment = true
      · rw [if_pos hn] at h; cases h
      · rw [if_neg hn] at h
        injection h with h
        subst h
        exact onePinnedInv_set hi rfl rfl hinv

/-- Merging all buffered replies preserves the invariant. -/
theorem mergeReplies_inv : ∀ {dict : List (Int × List Subcomment)} {cs cs' : List Comment},
    mergeReplies cs dict = some cs' → OnePinnedInv cs → OnePinnedInv cs'
  | [], cs, cs', h, hinv => by
      unfold mergeReplies at h
      injection h with h
      subst h
      exact hinv
  | (k, rs) :: rest, cs, cs', h, hinv => by
      unfold mergeReplies at h
      cases hone : mergeOneReply cs k rs with
      | none => rw [hone] at h; cases h
      | some cs2 =>
          rw [hone] at h
          exact mergeReplies_inv h (mergeOneReply_inv hone hinv)

/-- When a post has no matching log entry the replay only sorts its comments. -/
theorem replayVideo_none_shape {user : User} {v : Video}
    (hfind : user.feedAction.find? (fun fa => fa.post == v.vid) = none) :
    replayVideo user v = some { v with comments := sortCommentsDesc v.comments } := by
  unfold replayVideo
  rw [hfind]

/-- Successful replay of a post with a matching log entry: the comments are
the merged result, and the post-level overlays are the source's `like`,
`unlike` and `flag` assignments with their count increments. -/
theorem replayVideo_some_shape {user : User} {v w : Video} {fa : FeedAction}
    (hfind : user.feedAction.find? (fun fa => fa.post == v.vid) = some fa)
    (h : replayVideo user v = some w) :
    ∃ merged, mergeReplies (sortCommentsDesc (processComments fa v.comments).1)
        (processComments fa v.comments).2 = some merged
      ∧ w.comments = merged ∧ w.postID = v.postID ∧ w.vid = v.vid
      ∧ w.likes = (if fa.liked then v.likes + 1 else v.likes)
      ∧ w.like = (if fa.liked then true else v.like)
      ∧ w.liked = v.liked
      ∧ w.unlikes = (if fa.unliked then v.unlikes + 1 else v.unlikes)
      ∧ w.unlike = (if fa.unliked then true else v.unlike)
      ∧ w.unliked = v.unliked
      ∧ w.flag = (if fa.flagged then true else v.flag)
      ∧ w.flagged = v.flagged := by
  unfold replayVideo at h
  rw [hfind] at h
  simp only at h
  cases hmerge : mergeReplies (sortCommentsDesc (processComments fa v.comments).1)
      (processComments fa v.comments).2 with
  | none =>
      rw [hmerge] at h
      exact absurd h (by simp)
  | some merged =>
      rw [hmerge] at h
      refine ⟨merged, rfl, ?_⟩
      injection h with h
      subst h
      cases hl : fa.liked <;> cases hu : fa.unliked <;> cases hf : fa.flagged <;>
        simp [hl, hu, hf]

/-- Replay preserves the invariant. -/
theorem replayVideo_inv {user : User} {v w : Video}
    (h : replayVideo user v = some w)
    (hlog : ∀ fa ∈ user.feedAction, ∀ co ∈ fa.comments,
      co.relativeTime ≠ HARASSMENT_TIME_OFFSET)
    (hinv : OnePinnedInv v.comments) : OnePinnedInv w.comments := by
  cases hfind : user.feedAction.find? (fun fa => fa.post == v.vid) with
  | none =>
      rw [replayVideo_none_shape hfind] at h
      injection h with h
      subst h
      exact onePinnedInv_perm (insertionSort_perm _ _).symm hinv
  | some fa =>
      obtain ⟨merged, hmerge, hwc, _⟩ := replayVideo_some_shape hfind h
      rw [hwc]
      have hfa := List.mem_of_find?_eq_some hfind
      have h1 : OnePinnedInv (processComments fa v.comments).1 :=
        foldl_process_inv (hlog fa hfa) hinv
      have h2 : OnePinnedInv (sortCommentsDesc (processComments fa v.comments).1) :=
        onePinnedInv_perm (insertionSort_perm _ _).symm h1
      exact mergeReplies_inv hmerge h2

/-- Replay keeps a post's identity and ordering key. -/
theorem replayVideo_postID {user : User} {v w : Video} (h : replayVideo user v = some w) :
    w.postID = v.postID ∧ w.vid = v.vid := by
  cases hfind : user.feedAction.find? (fun fa => fa.post == v.vid) with
  | none =>
      rw [replayVideo_none_shape hfind] at h
      injection h with h
      subst h
      exact ⟨rfl, rfl⟩
  | some fa =>
      obtain ⟨merged, _, _, hpid, hvid, _⟩ := replayVideo_some_shape hfind h
      exact ⟨hpid, hvid⟩

/-- With exactly three videos, only the first is manipulated. -/
theorem applyExperimentalManipulations_three {env : Env} {actors : List Actor}
    {now : Int} {oid : Nat} {user : User} {va vb vc : Video} :
    applyExperimentalManipulations env actors now oid user [va, vb, vc]
      = [applyManipulationToFirstVideo env actors now oid user va, vb, vc] := by
  unfold applyExperimentalManipulations
  simp

theorem lePostID_trans (a b c : Video) : lePostID a b = true → lePostID b c = true →
    lePostID a c = true := by
  simp only [lePostID, decide_eq_true_eq]
  exact le_trans

theorem lePostID_total (a b : Video) : lePostID a b = true ∨ lePostID b a = true := by
  simp only [lePostID, decide_eq_true_eq]
  exact le_total _ _

/-- Claim C1 core: for any of the nine conditions, manipulating a first video
holding a unique harassment comment among inert neighbours leaves exactly one
comment at the pinned -6h time, and the assembled feed's first video still
holds exactly one such comment. -/
theorem c1_harassment_time_pinned (scripts : List Video) (actors : List Actor)
    (env : Env) (now : Int) (oid : Nat) (user : User) {va vb vc : Video} {i : Nat}
    (hcond : user.condition ∈ NINE_CONDITIONS)
    (hscr : insertionSort lePostID (scripts.filter (fun v => v.cls == user.interest))
      = [va, vb, vc])
    (hloc : locateHarassmentIndex va.comments = some i)
    (hothers : ∀ j (hj : j < va.comments.length), j ≠ i → inertComment va.comments[j])
    (hlog : ∀ fa ∈ user.feedAction, ∀ co ∈ fa.comments,
      co.relativeTime ≠ HARASSMENT_TIME_OFFSET) :
    HARASSMENT_TIME_OFFSET = -21600000
    ∧ (applyManipulationToFirstVideo env actors now oid user va).comments.countP timePinned = 1
    ∧ ∀ feed, getFeed scripts actors env now oid user = some feed →
        ∃ w ws, feed = w :: ws ∧ w.comments.countP timePinned = 1 := by
  have hinv0 : OnePinnedInv (applyManipulationToFirstVideo env actors now oid user va).comments :=
    manip_onePinnedInv hloc hothers
  refine ⟨by decide, hinv0.1, ?_⟩
  intro feed hfeed
  simp only [getFeed] at hfeed
  rw [hscr, applyExperimentalManipulations_three] at hfeed
  simp only [List.map_cons, List.map_nil] at hfeed
  set m := applyManipulationToFirstVideo env actors now oid user va with hm
  cases h0 : replayVideo user (repinHarassmentTimes m) with
  | none => rw [replayFeed, h0] at hfeed; simp at hfeed
  | some w0 =>
  cases h1 : replayVideo user (repinHarassmentTimes vb) with
  | none => rw [replayFeed, replayFeed, h0, h1] at hfeed; simp at hfeed
  | some w1 =>
  cases h2 : replayVideo user (repinHarassmentTimes vc) with
  | none => rw [replayFeed, replayFeed, replayFeed, h0, h1, h2] at hfeed; simp at hfeed
  | some w2 =>
  rw [replayFeed, replayFeed, replayFeed, replayFeed, h0, h1, h2] at hfeed
  simp only at hfeed
  -- the final sort is the identity: the postIDs are already ascending
  have hmva : m.postID = va.postID := by
    obtain ⟨c', heq, -⟩ := @manip_comments_eq env actors now oid user va i hloc
    rw [hm, heq]
  have hw0 : w0.postID = va.postID := by
    rw [(replayVideo_postID h0).1]
    exact hmva
  have hw1 : w1.postID = vb.postID := (replayVideo_postID h1).1
  have hw2 : w2.postID = vc.postID := (replayVideo_postID h2).1
  have hsortedv : List.Pairwise (fun x y => lePostID x y = true) [va, vb, vc] := by
    rw [← hscr]
    exact insertionSort_pairwise lePostID_trans lePostID_total _
  have hsortedw : List.Pairwise (fun x y => lePostID x y = true) [w0, w1, w2] := by
    rcases hsortedv with - | ⟨hva, hrest⟩
    rcases hrest with - | ⟨hvb, -⟩
    have hd1 := hva vb (by simp)
    have hd2 := hva vc (by simp)
    have hd3 := hvb vc (by simp)
    simp only [lePostID, decide_eq_true_eq] at hd1 hd2 hd3
    refine List.Pairwise.cons ?_ (List.Pairwise.cons ?_ (List.Pairwise.cons ?_ List.Pairwise.nil))
    · intro y hy
      rcases List.mem_cons.mp hy with rfl | hy
      · simp only [lePostID, decide_eq_true_eq, hw0, hw1]
        exact hd1
      · rcases List.mem_cons.mp hy with rfl | hy
        · simp only [lePostID, decide_eq_true_eq, hw0, hw2]
          exact hd2
        · exact absurd hy (List.not_mem_nil y)
    · intro y hy
      rcases List.mem_cons.mp hy with rfl | hy
      · simp only [lePostID, decide_eq_true_eq, hw1, hw2]
        exact hd3
      · exact absurd hy (List.not_mem_nil y)
    · intro y hy
      exact absurd hy (List.not_mem_nil y)
  rw [insertionSort_of_pairwise hsortedw] at hfeed
  simp only [List.map_cons, List.map_nil] at hfeed
  injection hfeed with hfeed
  refine ⟨finalPinPass (serializePost w0), _, hfeed.symm, ?_⟩
  have hw0inv : OnePinnedInv w0.comments :=
    replayVideo_inv h0 hlog (repin_onePinnedInv hinv0)
  exact (finalPin_onePinnedInv (serialize_onePinnedInv hw0inv)).1

/-- Writing back the element already present is the identity. -/
theorem set_self_of_getElem {l : List α} {i : Nat} (hi : i < l.length) :
    l.set i l[i] = l := by
  apply List.ext_getElem (by simp)
  intro j h1 h2
  by_cases hij : i = j
  · subst hij
    rw [List.getElem_set_self]
  · rw [List.getElem_set_ne hij]

/-- Reading back the element just written by `set`. -/
theorem getElem?_set_self_of_lt {l : List α} {i : Nat} {a : α} (hi : i < l.length) :
    (l.set i a)[i]? = some a := by
  rw [List.getElem?_eq_getElem (by simpa using hi), List.getElem_set_self]

theorem conditionDispatch_objAINoRef_some {env bot humans now oid user h v2 i b}
    (hc : user.condition = "Obj:AI:NoRef") (hb : bot = some b) :
    conditionDispatch env bot humans now oid user h v2 (some i)
      = pushObjection v2 i (objectionSubcomment oid
          (jsOrDefault env.OBJECTION_AI_NO_REF
            "This comment is offensive toward others. Please remember to stay respectful to each other here.")
          "ai_objection_no_ref" b now user.createdAt) := by
  rw [conditionDispatch_objAINoRef hc, hb]

theorem conditionDispatch_objAIRef_some {env bot humans now oid user h v2 i b}
    (hc : user.condition = "Obj:AI:Ref") (hb : bot = some b) :
    conditionDispatch env bot humans now oid user h v2 (some i)
      = pushObjection v2 i (objectionSubcomment oid
          (jsOrDefault env.OBJECTION_AI_REF
            "This comment is offensive toward others. This is not how people typically respond in this community.")
          "ai_objection_community" b now user.createdAt) := by
  rw [conditionDispatch_objAIRef hc, hb]

theorem conditionDispatch_objComNoRef_some {env bot humans now oid user h v2 i hd}
    (hc : user.condition = "Obj:Com:NoRef") (hh : humans.head? = some hd) :
    conditionDispatch env bot humans now oid user h v2 (some i)
      = pushObjection v2 i (objectionSubcomment oid
          (jsOrDefault env.OBJECTION_COM_NO_REF
            "Please remember to stay respectful to each other here.")
          "human_objection_no_ref" hd now user.createdAt) := by
  rw [conditionDispatch_objComNoRef hc, hh]

theorem conditionDispatch_objComRef_some {env bot humans now oid user h v2 i hd}
    (hc : user.condition = "Obj:Com:Ref") (hh : humans.head? = some hd) :
    conditionDispatch env bot humans now oid user h v2 (some i)
      = pushObjection v2 i (objectionSubcomment oid
          (jsOrDefault env.OBJECTION_COM_REF
            "This comment is offensive toward others. This is not how people typically respond in this community.")
          "human_objection_community" hd now user.createdAt) := by
  rw [conditionDispatch_objComRef hc, hh]

/-- The subcomment list of a prepared harassment comment is untouched. -/
theorem prepareFoundHarassment_subcomments (cond : String) (c : Comment) :
    (prepareFoundHarassment cond c).subcomments = c.subcomments := rfl

/-- Claim C2, amended: under an objection condition with the required actor
available, exactly one subcomment with `commentID = 96` is appended under the
harassment comment, and its time is `(now - 3h) - createdAt` (the source uses
the current time, not a fixed -3h offset). -/
theorem c2_objection_subcomment (env : Env) (actors : List Actor) (now : Int) (oid : Nat)
    (user : User) {v : Video} {i : Nat}
    (hcond : user.condition ∈ OBJ_CONDITIONS)
    (hloc : locateHarassmentIndex v.comments = some i)
    (hbot : user.condition = "Obj:AI:NoRef" ∨ user.condition = "Obj:AI:Ref" →
      ∃ b, actors.find? (fun a => a.username == "VidShare Bot") = some b)
    (hhum : user.condition = "Obj:Com:NoRef" ∨ user.condition = "Obj:Com:Ref" →
      ∃ hd, (actors.filter
        (fun a => a.cls == some "objection" && a.username != "VidShare Bot")).head? = some hd)
    (hno96 : ∀ s ∈ (v.comments.get ⟨i, locateHarassmentIndex_lt hloc⟩).subcomments,
      s.commentID ≠ 96) :
    ∃ c, (applyManipulationToFirstVideo env actors now oid user v).comments[i]? = some c
      ∧ c.subcomments.countP (fun s => s.commentID == 96) = 1
      ∧ ∃ s, c.subcomments.getLast? = some s ∧ s.commentID = 96
          ∧ s.time = (now - 3 * 60 * 60 * 1000) - user.createdAt := by
  have hi : i < v.comments.length := locateHarassmentIndex_lt hloc
  rw [manip_eq_dispatch hloc]
  set P := prepareFoundHarassment user.condition (v.comments.get ⟨i, hi⟩) with hP
  have hPsub : P.subcomments = (v.comments.get ⟨i, hi⟩).subcomments := rfl
  have hcount0 : P.subcomments.countP (fun s => s.commentID == 96) = 0 := by
    rw [List.countP_eq_zero]
    intro s hs
    rw [hPsub] at hs
    simpa using hno96 s hs
  have main : ∀ s : Subcomment, s.commentID = 96 →
      s.time = (now - 3 * 60 * 60 * 1000) - user.createdAt →
      ∃ c, (pushObjection { v with comments := v.comments.set i P } i s).comments[i]? = some c
        ∧ c.subcomments.countP (fun x => x.commentID == 96) = 1
        ∧ ∃ x, c.subcomments.getLast? = some x ∧ x.commentID = 96
            ∧ x.time = (now - 3 * 60 * 60 * 1000) - user.createdAt := by
    intro s hs96 hstime
    refine ⟨{ P with subcomments := P.subcomments ++ [s] }, ?_, ?_, s, ?_, hs96, hstime⟩
    · simp only [pushObjection, modifyIdx_set_self hi]
      exact getElem?_set_self_of_lt hi
    · simp only [List.countP_append, hcount0, List.countP_cons, List.countP_nil, hs96]
      simp
    · exact List.getLast?_concat _
  simp only [OBJ_CONDITIONS, List.mem_cons, List.not_mem_nil, or_false] at hcond
  rcases hcond with hc | hc | hc | hc
  · obtain ⟨b, hb⟩ := hbot (Or.inl hc)
    rw [conditionDispatch_objAINoRef_some hc hb]
    exact main _ rfl rfl
  · obtain ⟨b, hb⟩ := hbot (Or.inr hc)
    rw [conditionDispatch_objAIRef_some hc hb]
    exact main _ rfl rfl
  · obtain ⟨hd, hh⟩ := hhum (Or.inl hc)
    rw [conditionDispatch_objComNoRef_some hc hh]
    exact main _ rfl rfl
  · obtain ⟨hd, hh⟩ := hhum (Or.inr hc)
    rw [conditionDispatch_objComRef_some hc hh]
    exact main _ rfl rfl

theorem conditionDispatch_objAINoRef_none {env bot humans now oid user h v2 i}
    (hc : user.condition = "Obj:AI:NoRef") (hb : bot = none) :
    conditionDispatch env bot humans now oid user h v2 (some i) = v2 := by
  rw [conditionDispatch_objAINoRef hc, hb]

theorem conditionDispatch_objAIRef_none {env bot humans now oid user h v2 i}
    (hc : user.condition = "Obj:AI:Ref") (hb : bot = none) :
    conditionDispatch env bot humans now oid user h v2 (some i) = v2 := by
  rw [conditionDispatch_objAIRef hc, hb]

theorem conditionDispatch_objComNoRef_none {env bot humans now oid user h v2 i}
    (hc : user.condition = "Obj:Com:NoRef") (hh : humans.head? = none) :
    conditionDispatch env bot humans now oid user h v2 (some i) = v2 := by
  rw [conditionDispatch_objComNoRef hc, hh]

theorem conditionDispatch_objComRef_none {env bot humans now oid user h v2 i}
    (hc : user.condition = "Obj:Com:Ref") (hh : humans.head? = none) :
    conditionDispatch env bot humans now oid user h v2 (some i) = v2 := by
  rw [conditionDispatch_objComRef hc, hh]

/-- Claim C4: under removal conditions the harassment comment is anonymized
(`[deleted]`), loses its subcomments and has interactions disabled; across
all nine conditions, interactions are enabled exactly for `Control` and the
objection conditions. -/
theorem c4_removal_and_interactions (env : Env) (actors : List Actor) (now : Int)
    (oid : Nat) (user : User) {v : Video} {i : Nat}
    (hloc : locateHarassmentIndex v.comments = some i) :
    (user.condition ∈ REM_CONDITIONS →
      ∃ c, (applyManipulationToFirstVideo env actors now oid user v).comments[i]? = some c
        ∧ c.actor.username = "[deleted]" ∧ c.subcomments = []
        ∧ c.allowInteractions = some false)
    ∧ (user.condition ∈ NINE_CONDITIONS →
      ∃ c, (applyManipulationToFirstVideo env actors now oid user v).comments[i]? = some c
        ∧ (c.allowInteractions = some true ↔
            (user.condition = "Control" ∨ user.condition ∈ OBJ_CONDITIONS))) := by
  have hi : i < v.comments.length := locateHarassmentIndex_lt hloc
  rw [manip_eq_dispatch hloc]
  set P := prepareFoundHarassment user.condition (v.comments.get ⟨i, hi⟩) with hP
  constructor
  · intro hrem
    simp only [REM_CONDITIONS, List.mem_cons, List.not_mem_nil, or_false] at hrem
    rcases hrem with hc | hc | hc | hc
    · rw [conditionDispatch_remAINoRef hc]
      simp only [modifyIdx_set_self hi]
      refine ⟨_, getElem?_set_self_of_lt hi, rfl, rfl, ?_⟩
      show some (isObjectionCondition user.condition) = some false
      rw [hc]
      decide
    · rw [conditionDispatch_remAIRef hc]
      simp only [modifyIdx_set_self hi]
      refine ⟨_, getElem?_set_self_of_lt hi, rfl, rfl, ?_⟩
      show some (isObjectionCondition user.condition) = some false
      rw [hc]
      decide
    · rw [conditionDispatch_remComNoRef hc]
      simp only [modifyIdx_set_self hi]
      refine ⟨_, getElem?_set_self_of_lt hi, rfl, rfl, ?_⟩
      show some (isObjectionCondition user.condition) = some false
      rw [hc]
      decide
    · rw [conditionDispatch_remComRef hc]
      simp only [modifyIdx_set_self hi]
      refine ⟨_, getElem?_set_self_of_lt hi, rfl, rfl, ?_⟩
      show some (isObjectionCondition user.condition) = some false
      rw [hc]
      decide
  · intro hn
    simp only [NINE_CONDITIONS, List.mem_cons, List.not_mem_nil, or_false] at hn
    rcases hn with hc | hc | hc | hc | hc | hc | hc | hc | hc
    · rw [conditionDispatch_control hc]
      simp only [modifyIdx_set_self hi]
      refine ⟨_, getElem?_set_self_of_lt hi, ?_⟩
      show (some true : Option Bool) = some true ↔
        (user.condition = "Control" ∨ user.condition ∈ OBJ_CONDITIONS)
      rw [hc]
      decide
    · rw [conditionDispatch_remAINoRef hc]
      simp only [modifyIdx_set_self hi]
      refine ⟨_, getElem?_set_self_of_lt hi, ?_⟩
      show some (isObjectionCondition user.condition) = some true ↔
        (user.condition = "Control" ∨ user.condition ∈ OBJ_CONDITIONS)
      rw [hc]
      decide
    · rw [conditionDispatch_remAIRef hc]
      simp only [modifyIdx_set_self hi]
      refine ⟨_, getElem?_set_self_of_lt hi, ?_⟩
      show some (isObjectionCondition user.condition) = some true ↔
        (user.condition = "Control" ∨ user.condition ∈ OBJ_CONDITIONS)
      rw [hc]
      decide
    · rw [conditionDispatch_remComNoRef hc]
      simp only [modifyIdx_set_self hi]
      refine ⟨_, getElem?_set_self_of_lt hi, ?_⟩
      show some (isObjectionCondition user.condition) = some true ↔
        (user.condition = "Control" ∨ user.condition ∈ OBJ_CONDITIONS)
      rw [hc]
      decide
    · rw [conditionDispatch_remComRef hc]
      simp only [modifyIdx_set_self hi]
      refine ⟨_, getElem?_set_self_of_lt hi, ?_⟩
      show some (isObjectionCondition user.condition) = some true ↔
        (user.condition = "Control" ∨ user.condition ∈ OBJ_CONDITIONS)
      rw [hc]
      decide
    · cases hfb : actors.find? (fun a => a.username == "VidShare Bot") with
      | some b =>
          rw [conditionDispatch_objAINoRef_some hc rfl]
          simp only [pushObjection, modifyIdx_set_self hi]
          refine ⟨_, getElem?_set_self_of_lt hi, ?_⟩
          show some (isObjectionCondition user.condition) = some true ↔
            (user.condition = "Control" ∨ user.condition ∈ OBJ_CONDITIONS)
          rw [hc]
          decide
      | none =>
          rw [conditionDispatch_objAINoRef_none hc rfl]
          refine ⟨_, getElem?_set_self_of_lt hi, ?_⟩
          show some (isObjectionCondition user.condition) = some true ↔
            (user.condition = "Control" ∨ user.condition ∈ OBJ_CONDITIONS)
          rw [hc]
          decide
    · cases hfb : actors.find? (fun a => a.username == "VidShare Bot") with
      | some b =>
          rw [conditionDispatch_objAIRef_some hc rfl]
          simp only [pushObjection, modifyIdx_set_self hi]
          refine ⟨_, getElem?_set_self_of_lt hi, ?_⟩
          show some (isObjectionCondition user.condition) = some true ↔
            (user.condition = "Control" ∨ user.condition ∈ OBJ_CONDITIONS)
          rw [hc]
          decide
      | none =>
          rw [conditionDispatch_objAIRef_none hc rfl]
          refine ⟨_, getElem?_set_self_of_lt hi, ?_⟩
          show some (isObjectionCondition user.condition) = some true ↔
            (user.condition = "Control" ∨ user.condition ∈ OBJ_CONDITIONS)
          rw [hc]
          decide
    · cases hfh : (actors.filter
          (fun a => a.cls == some "objection" && a.username != "VidShare Bot")).head? with
      | some hd =>
          rw [conditionDispatch_objComNoRef_some hc hfh]
          simp only [pushObjection, modifyIdx_set_self hi]
          refine ⟨_, getElem?_set_self_of_lt hi, ?_⟩
          show some (isObjectionCondition user.condition) = some true ↔
            (user.condition = "Control" ∨ user.condition ∈ OBJ_CONDITIONS)
          rw [hc]
          decide
      | none =>
          rw [conditionDispatch_objComNoRef_none hc hfh]
          refine ⟨_, getElem?_set_self_of_lt hi, ?_⟩
          show some (isObjectionCondition user.condition) = some true ↔
            (user.condition = "Control" ∨ user.condition ∈ OBJ_CONDITIONS)
          rw [hc]
          decide
    · cases hfh : (actors.filter
          (fun a => a.cls == some "objection" && a.username != "VidShare Bot")).head? with
      | some hd =>
          rw [conditionDispatch_objComRef_some hc hfh]
          simp only [pushObjection, modifyIdx_set_self hi]
          refine ⟨_, getElem?_set_self_of_lt hi, ?_⟩
          show some (isObjectionCondition user.condition) = some true ↔
            (user.condition = "Control" ∨ user.condition ∈ OBJ_CONDITIONS)
          rw [hc]
          decide
      | none =>
          rw [conditionDispatch_objComRef_none hc hfh]
          refine ⟨_, getElem?_set_self_of_lt hi, ?_⟩
          show some (isObjectionCondition user.condition) = some true ↔
            (user.condition = "Control" ∨ user.condition ∈ OBJ_CONDITIONS)
          rw [hc]
          decide

theorem modifyIdx_length (l : List α) (i : Nat) (f : α → α) :
    (modifyIdx l i f).length = l.length := by
  unfold modifyIdx
  cases h : l[i]? <;> simp

/-- Whatever the condition, the dispatch keeps the comment count and the
`commentID` of the comment it targets. -/
theorem conditionDispatch_commentID_at {env : Env} {bot : Option Actor}
    {humans : List Actor} {now : Int} {oid : Nat} {user : User} {h : String}
    {v2 : Video} {i : Nat} (hi : i < v2.comments.length) :
    (conditionDispatch env bot humans now oid user h v2 (some i)).comments.length
        = v2.comments.length
    ∧ ∃ c, (conditionDispatch env bot humans now oid user h v2 (some i)).comments[i]? = some c
        ∧ c.commentID = v2.comments[i].commentID := by
  have base : ∀ g : Comment → Comment, (∀ x, (g x).commentID = x.commentID) →
      ({ v2 with comments := modifyIdx v2.comments i g } : Video).comments.length
          = v2.comments.length
      ∧ ∃ c, ({ v2 with comments := modifyIdx v2.comments i g } : Video).comments[i]? = some c
          ∧ c.commentID = v2.comments[i].commentID := by
    intro g hg
    refine ⟨modifyIdx_length _ _ _, g v2.comments[i], ?_, hg _⟩
    rw [modifyIdx_eq_set hi]
    exact getElem?_set_self_of_lt hi
  have triv : (v2.comments.length = v2.comments.length)
      ∧ ∃ c, v2.comments[i]? = some c ∧ c.commentID = v2.comments[i].commentID :=
    ⟨rfl, v2.comments[i], List.getElem?_eq_getElem hi, rfl⟩
  by_cases h1 : user.condition = "Control"
  · rw [conditionDispatch_control h1]
    exact base _ (fun x => rfl)
  by_cases h2 : user.condition = "Rem:AI:NoRef"
  · rw [conditionDispatch_remAINoRef h2]
    exact base _ (fun x => rfl)
  by_cases h3 : user.condition = "Rem:AI:Ref"
  · rw [conditionDispatch_remAIRef h3]
    exact base _ (fun x => rfl)
  by_cases h4 : user.condition = "Rem:Com:NoRef"
  · rw [conditionDispatch_remComNoRef h4]
    exact base _ (fun x => rfl)
  by_cases h5 : user.condition = "Rem:Com:Ref"
  · rw [conditionDispatch_remComRef h5]
    exact base _ (fun x => rfl)
  by_cases h6 : user.condition = "Obj:AI:NoRef"
  · cases hb : bot with
    | some b =>
        rw [conditionDispatch_objAINoRef_some h6 rfl]
        simp only [pushObjection]
        exact base _ (fun x => rfl)
    | none =>
        rw [conditionDispatch_objAINoRef_none h6 rfl]
        exact triv
  by_cases h7 : user.condition = "Obj:AI:Ref"
  · cases hb : bot with
    | some b =>
        rw [conditionDispatch_objAIRef_some h7 rfl]
        simp only [pushObjection]
        exact base _ (fun x => rfl)
    | none =>
        rw [conditionDispatch_objAIRef_none h7 rfl]
        exact triv
  by_cases h8 : user.condition = "Obj:Com:NoRef"
  · cases hh : humans.head? with
    | some hd =>
        rw [conditionDispatch_objComNoRef_some h8 hh]
        simp only [pushObjection]
        exact base _ (fun x => rfl)
    | none =>
        rw [conditionDispatch_objComNoRef_none h8 hh]
        exact triv
  by_cases h9 : user.condition = "Obj:Com:Ref"
  · cases hh : humans.head? with
    | some hd =>
        rw [conditionDispatch_objComRef_some h9 hh]
        simp only [pushObjection]
        exact base _ (fun x => rfl)
    | none =>
        rw [conditionDispatch_objComRef_none h9 hh]
        exact triv
  · rw [conditionDispatch_default (by
      simp only [NINE_CONDITIONS, List.mem_cons, List.not_mem_nil, or_false, not_or]
      exact ⟨h1, h2, h3, h4, h5, h6, h7, h8, h9⟩)]
    exact triv

/-- Claim C3, amended: when no harassment comment is found, the manipulation
is a no-op only when no fallback actor exists (and the condition is not
`Control`); whenever an actor exists a synthetic comment with
`commentID = 999` is appended — also when the video already has comments. -/
theorem c3_synthetic_creation (env : Env) (actors : List Actor) (now : Int) (oid : Nat)
    (user : User) {v : Video}
    (hnone : locateHarassmentIndex v.comments = none) :
    (actors = [] → user.condition ≠ "Control" →
      applyManipulationToFirstVideo env actors now oid user v = v)
    ∧ (∀ a, actors.head? = some a →
      (applyManipulationToFirstVideo env actors now oid user v).comments.length
          = v.comments.length + 1
      ∧ ∃ c, (applyManipulationToFirstVideo env actors now oid user v).comments[v.comments.length]?
            = some c ∧ c.commentID = 999) := by
  constructor
  · intro ha hcond
    subst ha
    simp only [applyManipulationToFirstVideo, hnone, List.head?_nil, Option.isNone_none,
      Bool.true_and]
    rw [if_pos (by simpa [bne_iff_ne] using hcond)]
  · intro a ha
    have hred : applyManipulationToFirstVideo env actors now oid user v
        = conditionDispatch env (actors.find? (fun x => x.username == "VidShare Bot"))
            (actors.filter (fun x => x.cls == some "objection" && x.username != "VidShare Bot"))
            now oid user (jsOrDefault env.HARASSMENT_COMMENT defaultHarassmentComment)
            { v with comments := v.comments ++ [syntheticHarassmentComment env user.condition a] }
            (some v.comments.length) := by
      simp only [applyManipulationToFirstVideo, hnone, ha, Option.isNone_some, Bool.false_and,
        Bool.false_eq_true, if_false]
    rw [hred]
    have hlen : v.comments.length
        < ({ v with comments := v.comments ++ [syntheticHarassmentComment env user.condition a] }
            : Video).comments.length := by
      simp
    obtain ⟨hlena, c, hc, hcid⟩ := conditionDispatch_commentID_at hlen
    refine ⟨by rw [hlena]; simp, c, hc, ?_⟩
    rw [hcid]
    have : (v.comments ++ [syntheticHarassmentComment env user.condition a])[v.comments.length]
        = syntheticHarassmentComment env user.condition a :=
      List.getElem_concat_length _ _ _ rfl _
    simp only [this]
    rfl

/-- The post-level overlay of replay: `like`, `unlike`, `flag` are written
with the matching count increments, while the schema fields `liked`,
`unliked`, `flagged` of the video are untouched. -/
theorem replay_post_overlay {user : User} {v w : Video} {fa : FeedAction}
    (hfind : user.feedAction.find? (fun x => x.post == v.vid) = some fa)
    (hrep : replayVideo user v = some w) :
    (fa.liked = true → w.like = true ∧ w.likes = v.likes + 1)
    ∧ (fa.unliked = true → w.unlike = true ∧ w.unlikes = v.unlikes + 1)
    ∧ (fa.flagged = true → w.flag = true)
    ∧ w.liked = v.liked ∧ w.unliked = v.unliked ∧ w.flagged = v.flagged := by
  obtain ⟨m, hm, hc, hpid, hvid, hlikes, hlike, hliked, hunlikes, hunlike, hunliked,
    hflag, hflagged⟩ := replayVideo_some_shape hfind hrep
  refine ⟨?_, ?_, ?_, hliked, hunliked, hflagged⟩
  · intro hl
    constructor <;> simp [hlike, hlikes, hl]
  · intro hu
    constructor <;> simp [hunlike, hunlikes, hu]
  · intro hf
    simp [hflag, hf]

/-- Claim C5, amended: replay writes the post-level overlay to the `like`,
`unlike` and `flag` properties (incrementing `likes`/`unlikes` by exactly 1),
not to the schema fields `liked`, `unliked`, `flagged`, which are unchanged. -/
theorem c5_post_level_fields {user : User} {v w : Video} {fa : FeedAction}
    (hfind : user.feedAction.find? (fun x => x.post == v.vid) = some fa)
    (hrep : replayVideo user v = some w) :
    (fa.liked = true → w.like = true ∧ w.likes = v.likes + 1)
    ∧ (fa.unliked = true → w.unlike = true ∧ w.unlikes = v.unlikes + 1)
    ∧ (fa.flagged = true → w.flag = true)
    ∧ w.liked = v.liked ∧ w.unliked = v.unliked ∧ w.flagged = v.flagged :=
  replay_post_overlay hfind hrep

/-- `find?` returns the element at the first index satisfying the predicate. -/
theorem find?_eq_some_of_getElem {l : List α} {p : α → Bool} : ∀ {i : Nat} (hi : i < l.length),
    p (l.get ⟨i, hi⟩) = true →
    (∀ j (hj : j < l.length), j < i → p (l.get ⟨j, hj⟩) = false) →
    l.find? p = some (l.get ⟨i, hi⟩) := by
  induction l with
  | nil =>
      intro i hi
      simp at hi
  | cons a t ih =>
      intro i hi hp hbefore
      cases i with
      | zero =>
          rw [List.find?_cons]
          have ha : p a = true := hp
          rw [ha]
          rfl
      | succ k =>
          have ha : p a = false := hbefore 0 (by simp) (Nat.succ_pos k)
          rw [List.find?_cons, ha]
          exact ih (Nat.lt_of_succ_lt_succ hi) hp
            (fun j hj hjk => hbefore (j + 1) (by simpa using Nat.succ_lt_succ hj)
              (Nat.succ_lt_succ hjk))

/-- Buffering a reply keeps the dictionary keys duplicate-free. -/
theorem addToReplyDict_keys_nodup {d : List (Int × List Subcomment)} {k : Int}
    {s : Subcomment} (h : (d.map Prod.fst).Nodup) :
    ((addToReplyDict d k s).map Prod.fst).Nodup := by
  unfold addToReplyDict
  by_cases hany : d.any (fun p => p.1 == k) = true
  · rw [if_pos hany]
    have heq : (d.map (fun p => if p.1 == k then (p.1, p.2 ++ [s]) else p)).map Prod.fst
        = d.map Prod.fst := by
      rw [List.map_map]
      apply List.map_congr_left
      intro p hp
      by_cases hpk : p.1 = k <;> simp [hpk]
    rw [heq]
    exact h
  · rw [if_neg hany]
    rw [List.map_append, List.nodup_append]
    refine ⟨h, by simp, ?_⟩
    intro x hx hx2
    have hxk : x = k := by simpa using hx2
    subst hxk
    rcases List.mem_map.mp hx with ⟨p, hp, hpk⟩
    have hfalse := List.any_eq_false.mp (Bool.eq_false_iff.mpr hany) p hp
    apply hfalse
    simp [hpk]

/-- One replay step keeps the dictionary keys duplicate-free. -/
theorem processActionedComment_keys_nodup {st : List Comment × List (Int × List Subcomment)}
    {co : ActionedComment} (h : (st.2.map Prod.fst).Nodup) :
    (((processActionedComment st co).2).map Prod.fst).Nodup := by
  unfold processActionedComment
  by_cases hnew : co.new_comment = true
  · rw [if_pos hnew]
    cases hr : co.reply_to with
    | some r => exact addToReplyDict_keys_nodup h
    | none => exact h
  · rw [if_neg hnew]
    cases hfind : st.1.findIdx? (fun c => c.cid == some co.comment) with
    | some i => exact h
    | none => exact h

/-- The reply dictionary built by replay has duplicate-free keys. -/
theorem processComments_keys_nodup (fa : FeedAction) (cs : List Comment) :
    (((processComments fa cs).2).map Prod.fst).Nodup := by
  unfold processComments
  suffices hgen : ∀ (l : List ActionedComment) (st : List Comment × List (Int × List Subcomment)),
      (st.2.map Prod.fst).Nodup → ((l.foldl processActionedComment st).2.map Prod.fst).Nodup by
    exact hgen fa.comments (cs, []) (by simp)
  intro l
  induction l with
  | nil =>
      intro st h
      simpa using h
  | cons a t ih =>
      intro st h
      rw [List.foldl_cons]
      exact ih _ (processActionedComment_keys_nodup h)

/-- Structure of a successful single merge. -/
theorem mergeOneReply_eq {cs : List Comment} {k : Int} {rs : List Subcomment}
    {cs' : List Comment} (h : mergeOneReply cs k rs = some cs') :
    ∃ (i : Nat) (hi : i < cs.length),
      cs.findIdx? (fun c => c.commentID == k) = some i
      ∧ (cs.get ⟨i, hi⟩).commentID = k
      ∧ cs' = cs.set i { cs.get ⟨i, hi⟩ with
          subcomments := sortSubcommentsAsc ((cs.get ⟨i, hi⟩).subcomments ++ rs) } := by
  unfold mergeOneReply at h
  cases hfind : cs.findIdx? (fun c => c.commentID == k) with
  | none =>
      rw [hfind] at h
      cases h
  | some i =>
      rw [hfind] at h
      obtain ⟨hi, hp, -⟩ := List.findIdx?_eq_some_iff_getElem.mp hfind
      simp only [List.getElem?_eq_getElem hi] at h
      by_cases hn : cs[i].new_comment = true
      · rw [if_pos hn] at h
        cases h
      · rw [if_neg hn] at h
        injection h with h
        exact ⟨i, hi, rfl, by simpa using hp, h.symm⟩

/-- Comments whose `commentID` is outside the dictionary keys survive the
merge untouched. -/
theorem mergeReplies_mem_of_notkey :
    ∀ {dict : List (Int × List Subcomment)} {cs cs' : List Comment},
      mergeReplies cs dict = some cs' → ∀ {c : Comment}, c ∈ cs →
      (∀ kv ∈ dict, c.commentID ≠ kv.1) → c ∈ cs'
  | [], cs, cs', h, c, hc, hk => by
      unfold mergeReplies at h
      injection h with h
      subst h
      exact hc
  | (k, rs) :: rest, cs, cs', h, c, hc, hk => by
      unfold mergeReplies at h
      cases hone : mergeOneReply cs k rs with
      | none =>
          rw [hone] at h
          cases h
      | some cs2 =>
          rw [hone] at h
          obtain ⟨i, hi, hfind, hkid, rfl⟩ := mergeOneReply_eq hone
          have hckk : c.commentID ≠ k := hk (k, rs) (List.mem_cons_self _ _)
          have hc2 : c ∈ cs.set i { cs.get ⟨i, hi⟩ with
              subcomments := sortSubcommentsAsc ((cs.get ⟨i, hi⟩).subcomments ++ rs) } := by
            rcases List.mem_iff_getElem.mp hc with ⟨j, hj, rfl⟩
            by_cases hij : j = i
            · subst hij
              exact absurd (by simpa using hkid) hckk
            · have hj2 : j < (cs.set i { cs.get ⟨i, hi⟩ with
                  subcomments := sortSubcommentsAsc ((cs.get ⟨i, hi⟩).subcomments ++ rs) }).length := by
                simpa using hj
              have hmem := List.getElem_mem hj2
              rwa [List.getElem_set_ne (fun hh => hij hh.symm) hj2] at hmem
          exact mergeReplies_mem_of_notkey h hc2
            (fun kv hkv => hk kv (List.mem_cons_of_mem _ hkv))

/-- Replacing the element at `i` with one carrying the same `commentID` does
not change a `find?` by a different `commentID`. -/
theorem find?_commentID_set_ne {cs : List Comment} : ∀ {i : Nat} {c0 : Comment}
    (hi : i < cs.length), c0.commentID = cs[i].commentID → ∀ {k : Int},
    cs[i].commentID ≠ k →
    (cs.set i c0).find? (fun c => c.commentID == k) = cs.find? (fun c => c.commentID == k) := by
  induction cs with
  | nil =>
      intro i c0 hi
      simp at hi
  | cons a t ih =>
      intro i c0 hi hsame k hk
      cases i with
      | zero =>
          simp only [List.getElem_cons_zero] at hsame hk
          rw [List.set_cons_zero, List.find?_cons, List.find?_cons]
          have h0 : (c0.commentID == k) = false := by
            rw [hsame]
            simpa using hk
          have ha : (a.commentID == k) = false := by simpa using hk
          rw [h0, ha]
      | succ n =>
          simp only [List.getElem_cons_succ] at hsame hk
          rw [List.set_cons_succ, List.find?_cons, List.find?_cons]
          cases hpa : (a.commentID == k) with
          | true => rfl
          | false => exact ih (Nat.lt_of_succ_lt_succ hi) hsame hk

/-- Each buffered reply list ends up under its parent: the parent is found in
the pre-merge list, and the merged list contains the parent with the
concatenated-and-resorted subcomments. -/
theorem mergeReplies_spec :
    ∀ {dict : List (Int × List Subcomment)} {cs cs' : List Comment},
      mergeReplies cs dict = some cs' → (dict.map Prod.fst).Nodup →
      ∀ k rs, (k, rs) ∈ dict →
        ∃ c₀, cs.find? (fun c => c.commentID == k) = some c₀
          ∧ c₀.commentID = k
          ∧ { c₀ with subcomments := sortSubcommentsAsc (c₀.subcomments ++ rs) } ∈ cs'
  | [], cs, cs', h, hnodup, k, rs, hmem => absurd hmem (List.not_mem_nil _)
  | (k0, rs0) :: rest, cs, cs', h, hnodup, k, rs, hmem => by
      unfold mergeReplies at h
      cases hone : mergeOneReply cs k0 rs0 with
      | none =>
          rw [hone] at h
          cases h
      | some cs2 =>
          rw [hone] at h
          obtain ⟨i, hi, hfind, hkid, rfl⟩ := mergeOneReply_eq hone
          rw [List.map_cons, List.nodup_cons] at hnodup
          obtain ⟨hk0, hrestnodup⟩ := hnodup
          rcases List.mem_cons.mp hmem with heq | hrest
          · injection heq with h1 h2
            subst h1
            subst h2
            obtain ⟨hic, hp, hbefore⟩ := List.findIdx?_eq_some_iff_getElem.mp hfind
            refine ⟨cs.get ⟨i, hi⟩, ?_, hkid, ?_⟩
            · exact find?_eq_some_of_getElem hi (by simpa using hp)
                (fun j hj hjk => by
                  have := hbefore j hjk
                  simpa using this)
            · have hmem2 : { cs.get ⟨i, hi⟩ with
                  subcomments := sortSubcommentsAsc ((cs.get ⟨i, hi⟩).subcomments ++ rs) } ∈
                    cs.set i { cs.get ⟨i, hi⟩ with
                      subcomments := sortSubcommentsAsc ((cs.get ⟨i, hi⟩).subcomments ++ rs) } := by
                have hi2 : i < (cs.set i { cs.get ⟨i, hi⟩ with
                    subcomments := sortSubcommentsAsc ((cs.get ⟨i, hi⟩).subcomments ++ rs) }).length := by
                  simpa using hi
                have hmem3 := List.getElem_mem hi2
                rwa [List.getElem_set_self] at hmem3
              refine mergeReplies_mem_of_notkey h hmem2 ?_
              intro kv hkv heqk
              apply hk0
              have hkv1 : kv.1 = k := heqk.symm.trans hkid
              exact List.mem_map.mpr ⟨kv, hkv, hkv1⟩
          · have hkne : cs[i].commentID ≠ k := by
              have hkmem : k ∈ rest.map Prod.fst := List.mem_map.mpr ⟨(k, rs), hrest, rfl⟩
              intro hcc
              apply hk0
              have hik0 : cs[i].commentID = k0 := by simpa using hkid
              rw [← hik0, hcc]
              exact hkmem
            obtain ⟨c₀, hfc, hck, hmm⟩ := mergeReplies_spec h hrestnodup k rs hrest
            refine ⟨c₀, ?_, hck, hmm⟩
            rw [← hfc]
            exact (@find?_commentID_set_ne cs i { cs.get ⟨i, hi⟩ with
              subcomments := sortSubcommentsAsc ((cs.get ⟨i, hi⟩).subcomments ++ rs0) }
              hi rfl k hkne).symm

/-- The merge step only changes subcomments: the top-level time sequence is
untouched. -/
theorem mergeReplies_map_time :
    ∀ {dict : List (Int × List Subcomment)} {cs cs' : List Comment},
      mergeReplies cs dict = some cs' →
      cs'.map (fun c => c.time) = cs.map (fun c => c.time)
  | [], cs, cs', h => by
      unfold mergeReplies at h
      injection h with h
      subst h
      rfl
  | (k, rs) :: rest, cs, cs', h => by
      unfold mergeReplies at h
      cases hone : mergeOneReply cs k rs with
      | none =>
          rw [hone] at h
          cases h
      | some cs2 =>
          rw [hone] at h
          obtain ⟨i, hi, hfind, hkid, rfl⟩ := mergeOneReply_eq hone
          have hi2 : i < (List.map (fun c => c.time) cs).length := by simpa using hi
          rw [mergeReplies_map_time h, List.map_set]
          have htime : ({ cs.get ⟨i, hi⟩ with
              subcomments := sortSubcommentsAsc ((cs.get ⟨i, hi⟩).subcomments ++ rs) }
              : Comment).time = (List.map (fun c => c.time) cs)[i] := by
            rw [List.getElem_map]
            rfl
          rw [htime]
          exact set_self_of_getElem hi2

/-- Equal time sequences transport the descending ordering. -/
theorem pairwise_desc_of_map_time_eq {cs cs' : List Comment}
    (hmap : cs'.map (fun c => c.time) = cs.map (fun c => c.time))
    (h : cs.Pairwise (fun a b => b.time ≤ a.time)) :
    cs'.Pairwise (fun a b => b.time ≤ a.time) := by
  have h1 : (cs.map (fun c => c.time)).Pairwise (fun a b => b ≤ a) :=
    (List.pairwise_map).mpr h
  rw [← hmap] at h1
  exact (List.pairwise_map).mp h1

/-- The comment sort produces a descending time sequence. -/
theorem sortCommentsDesc_pairwise (cs : List Comment) :
    (sortCommentsDesc cs).Pairwise (fun a b => b.time ≤ a.time) := by
  have h := @insertionSort_pairwise Comment (fun a b : Comment => decide (b.time ≤ a.time))
    (fun a b c h1 h2 => by
      simp only [decide_eq_true_eq] at h1 h2 ⊢
      exact le_trans h2 h1)
    (fun a b => by
      simp only [decide_eq_true_eq]
      exact le_total _ _) cs
  exact h.imp (fun hab => by simpa using hab)

/-- The subcomment sort produces an ascending time sequence. -/
theorem sortSubcommentsAsc_pairwise (ss : List Subcomment) :
    (sortSubcommentsAsc ss).Pairwise (fun a b => a.time ≤ b.time) := by
  have h := @insertionSort_pairwise Subcomment (fun a b : Subcomment => decide (a.time ≤ b.time))
    (fun a b c h1 h2 => by
      simp only [decide_eq_true_eq] at h1 h2 ⊢
      exact le_trans h1 h2)
    (fun a b => by
      simp only [decide_eq_true_eq]
      exact le_total _ _) ss
  exact h.imp (fun hab => by simpa using hab)

/-- Claim C7: after replaying a post with a log entry, the top-level comments
are in descending time order, and every parent that received buffered replies
carries the concatenation of its previous subcomments with those replies,
re-sorted ascending by time. -/
theorem c7_replay_orderings {user : User} {v w : Video} {fa : FeedAction}
    (hfind : user.feedAction.find? (fun x => x.post == v.vid) = some fa)
    (hrep : replayVideo user v = some w) :
    w.comments.Pairwise (fun a b => b.time ≤ a.time)
    ∧ ∀ k rs, (k, rs) ∈ (processComments fa v.comments).2 →
        ∃ c₀ c, (sortCommentsDesc (processComments fa v.comments).1).find?
              (fun x => x.commentID == k) = some c₀
          ∧ c ∈ w.comments ∧ c.commentID = k
          ∧ c.subcomments = sortSubcommentsAsc (c₀.subcomments ++ rs)
          ∧ c.subcomments.Pairwise (fun a b => a.time ≤ b.time) := by
  obtain ⟨merged, hmerge, hwc, -⟩ := replayVideo_some_shape hfind hrep
  constructor
  · rw [hwc]
    exact pairwise_desc_of_map_time_eq (mergeReplies_map_time hmerge)
      (sortCommentsDesc_pairwise _)
  · intro k rs hmem
    have hnodup := processComments_keys_nodup fa v.comments
    obtain ⟨c₀, hfindk, hck, hmm⟩ := mergeReplies_spec hmerge hnodup k rs hmem
    refine ⟨c₀, { c₀ with subcomments := sortSubcommentsAsc (c₀.subcomments ++ rs) },
      hfindk, ?_, hck, rfl, ?_⟩
    · rw [hwc]
      exact hmm
    · exact sortSubcommentsAsc_pairwise _

/-- Claim C8: a second feed assembly over the store produced by the first one
returns the same feed, and a single `liked` log entry adds exactly one like
to its post — the count reflects the log, not the number of invocations. -/
theorem c8_idempotent_assembly (store : Store) (env : Env) (now : Int) (oid : Nat)
    (user : User) {v w : Video} {fa : FeedAction}
    (hfind : user.feedAction.find? (fun x => x.post == v.vid) = some fa)
    (hliked : fa.liked = true)
    (hrep : replayVideo user v = some w) :
    (getFeedS (getFeedS store env now oid user).1 env now oid user).2
        = (getFeedS store env now oid user).2
    ∧ w.likes = v.likes + 1 ∧ w.like = true := by
  refine ⟨rfl, ?_⟩
  obtain ⟨hl, -⟩ := (replay_post_overlay hfind hrep)
  obtain ⟨h1, h2⟩ := hl hliked
  exact ⟨h2, h1⟩

/-- Claim C9: feed assembly never writes to the shared stores — the script
and actor stores after `getFeedS` are the very stores that were passed in.
The embedding reflects that the source's only store operations on this path
are the read queries `Script.find`, `Actor.findOne` and `Actor.find`. -/
theorem c9_stores_unchanged (store : Store) (env : Env) (now : Int) (oid : Nat)
    (user : User) :
    (getFeedS store env now oid user).1 = store
    ∧ (getFeedS store env now oid user).1.scripts = store.scripts
    ∧ (getFeedS store env now oid user).1.actors = store.actors :=
  ⟨rfl, rfl, rfl⟩

/-- Claim C10: the tutorial feed is definitionally the main feed. -/
theorem c10_tutorial_eq_feed (scripts : List Video) (actors : List Actor) (env : Env)
    (now : Int) (oid : Nat) (user : User) :
    getTutorial scripts actors env now oid user = getFeed scripts actors env now oid user :=
  rfl

/-- Concrete scenario data for instantiating the theorems. -/
def profileW : Profile :=
  { name := "A", location := "", bio := "", color := "c", picture := "p" }

/-- A human actor tagged with the objection role. -/
def actorW : Actor :=
  { aid := 1, username := "alice", cls := some "objection", profile := profileW }

/-- The designated AI objection actor. -/
def actorBotW : Actor :=
  { aid := 2, username := "VidShare Bot", cls := some "objection", profile := profileW }

/-- An environment with no message overrides: all defaults apply. -/
def envW : Env :=
  { HARASSMENT_COMMENT := none, REMOVAL_AI_NO_REF := none, REMOVAL_AI_REF := none,
    REMOVAL_COM_NO_REF := none, REMOVAL_COM_REF := none, OBJECTION_AI_NO_REF := none,
    OBJECTION_AI_REF := none, OBJECTION_COM_NO_REF := none, OBJECTION_COM_REF := none }

/-- The canonical harassment comment of the first scenario video. -/
def harassmentCommentW : Comment :=
  { cid := some 10, commentID := 13,
    body := "LOL, did you even preview this before sharing? No one is interested in this crap. Save your time and ours.",
    likes := 5, unlikes := 2, actor := actorW, time := -100, cls := "offense1",
    removed := false, allowInteractions := none, liked := false, unliked := false,
    flagged := false, new_comment := false, subcomments := [] }

/-- An ordinary scenario comment. -/
def plainCommentW : Comment :=
  { cid := some 11, commentID := 14, body := "nice video", likes := 0, unlikes := 0,
    actor := actorW, time := -50, cls := "c1", removed := false, allowInteractions := none,
    liked := false, unliked := false, flagged := false, new_comment := false, subcomments := [] }

/-- The scenario's first video: one plain comment and the harassment comment. -/
def vidW1 : Video :=
  { vid := 100, postID := 1, cls := "Science", actor := actorW,
    comments := [plainCommentW, harassmentCommentW], likes := 3, unlikes := 0,
    liked := false, unliked := false, flagged := false,
    like := false, unlike := false, flag := false }

/-- The scenario's second (buffer) video. -/
def vidW2 : Video :=
  { vid := 101, postID := 2, cls := "Science", actor := actorW, comments := [],
    likes := 0, unlikes := 0, liked := false, unliked := false, flagged := false,
    like := false, unlike := false, flag := false }

/-- The scenario's third (buffer) video. -/
def vidW3 : Video :=
  { vid := 102, postID := 3, cls := "Science", actor := actorW, comments := [],
    likes := 0, unlikes := 0, liked := false, unliked := false, flagged := false,
    like := false, unlike := false, flag := false }

/-- A user in the control condition with an empty action log. -/
def userC1W : User :=
  { interest := "Science", condition := "Control", createdAt := 0, feedAction := [] }

theorem c1_witness :
    HARASSMENT_TIME_OFFSET = -21600000
    ∧ (applyManipulationToFirstVideo envW [actorW, actorBotW] 0 7 userC1W
        vidW1).comments.countP timePinned = 1
    ∧ ∀ feed, getFeed [vidW1, vidW2, vidW3] [actorW, actorBotW] envW 0 7 userC1W = some feed →
        ∃ w ws, feed = w :: ws ∧ w.comments.countP timePinned = 1 :=
  @c1_harassment_time_pinned [vidW1, vidW2, vidW3] [actorW, actorBotW] envW 0 7 userC1W
    vidW1 vidW2 vidW3 1 (by decide) (by rfl) (by rfl) (by decide) (by decide)

/-- A user in the AI objection condition. -/
def userC2W : User :=
  { interest := "Science", condition := "Obj:AI:NoRef", createdAt := 0, feedAction := [] }

theorem c2_counterexample :
    ((applyManipulationToFirstVideo envW [actorW, actorBotW] 1000000 7 userC2W
        vidW1).comments.map (fun c => c.subcomments.map (fun s => (s.commentID, s.time))))
      = [[], [(96, -9800000)]]
    ∧ ((-9800000 : Int) = -3 * 60 * 60 * 1000 → False) := by
  constructor
  · decide
  · decide

theorem c2_witness :
    ∃ c, (applyManipulationToFirstVideo envW [actorW, actorBotW] 1000000 7 userC2W
        vidW1).comments[1]? = some c
      ∧ c.subcomments.countP (fun s => s.commentID == 96) = 1
      ∧ ∃ s, c.subcomments.getLast? = some s ∧ s.commentID = 96
          ∧ s.time = (1000000 - 3 * 60 * 60 * 1000) - userC2W.createdAt :=
  @c2_objection_subcomment envW [actorW, actorBotW] 1000000 7 userC2W vidW1 1
    (by decide) (by rfl) (fun _ => ⟨actorBotW, by rfl⟩) (fun _ => ⟨actorW, by rfl⟩)
    (by decide)

/-- A first video with comments but no harassment comment. -/
def vidNoHarW : Video := { vidW1 with comments := [plainCommentW] }

/-- A user in an AI removal condition with an empty action log. -/
def userC3W : User :=
  { interest := "Science", condition := "Rem:AI:NoRef", createdAt := 0, feedAction := [] }

theorem c3_counterexample :
    vidNoHarW.comments.length = 1
    ∧ applyManipulationToFirstVideo envW [actorW] 0 7 userC3W vidNoHarW ≠ vidNoHarW
    ∧ (applyManipulationToFirstVideo envW [actorW] 0 7 userC3W vidNoHarW).comments.countP
        (fun c => c.commentID == 999) = 1 := by
  refine ⟨rfl, ?_, by decide⟩
  decide

theorem c3_witness :
    ([actorW] = [] → userC3W.condition ≠ "Control" →
      applyManipulationToFirstVideo envW [actorW] 0 7 userC3W vidNoHarW = vidNoHarW)
    ∧ (∀ a, ([actorW] : List Actor).head? = some a →
      (applyManipulationToFirstVideo envW [actorW] 0 7 userC3W vidNoHarW).comments.length
          = vidNoHarW.comments.length + 1
      ∧ ∃ c, (applyManipulationToFirstVideo envW [actorW] 0 7 userC3W
            vidNoHarW).comments[vidNoHarW.comments.length]? = some c ∧ c.commentID = 999) :=
  @c3_synthetic_creation envW [actorW] 0 7 userC3W vidNoHarW (by rfl)

theorem c4_witness :
    (userC3W.condition ∈ REM_CONDITIONS →
      ∃ c, (applyManipulationToFirstVideo envW [actorW, actorBotW] 0 7 userC3W
          vidW1).comments[1]? = some c
        ∧ c.actor.username = "[deleted]" ∧ c.subcomments = []
        ∧ c.allowInteractions = some false)
    ∧ (userC3W.condition ∈ NINE_CONDITIONS →
      ∃ c, (applyManipulationToFirstVideo envW [actorW, actorBotW] 0 7 userC3W
          vidW1).comments[1]? = some c
        ∧ (c.allowInteractions = some true ↔
            (userC3W.condition = "Control" ∨ userC3W.condition ∈ OBJ_CONDITIONS))) :=
  @c4_removal_and_interactions envW [actorW, actorBotW] 0 7 userC3W vidW1 1 (by rfl)

/-- The post-level action-log entry of the overlay scenario. -/
def faC5W : FeedAction :=
  { post := 100, liked := true, unliked := true, flagged := true, comments := [] }

/-- A control-condition user who liked, disliked and flagged the first post. -/
def userC5W : User :=
  { interest := "Science", condition := "Control", createdAt := 0, feedAction := [faC5W] }

/-- The replayed first video of the overlay scenario. -/
def wC5W : Video := (replayVideo userC5W vidW1).getD vidW1

theorem c5_counterexample :
    replayVideo userC5W vidW1 = some wC5W
    ∧ wC5W.liked = false ∧ wC5W.like = true
    ∧ wC5W.unliked = false ∧ wC5W.unlike = true
    ∧ wC5W.flagged = false ∧ wC5W.flag = true
    ∧ wC5W.likes = vidW1.likes + 1 ∧ wC5W.unlikes = vidW1.unlikes + 1 := by
  decide

theorem c5_witness :
    (faC5W.liked = true → wC5W.like = true ∧ wC5W.likes = vidW1.likes + 1)
    ∧ (faC5W.unliked = true → wC5W.unlike = true ∧ wC5W.unlikes = vidW1.unlikes + 1)
    ∧ (faC5W.flagged = true → wC5W.flag = true)
    ∧ wC5W.liked = vidW1.liked ∧ wC5W.unliked = vidW1.unliked
    ∧ wC5W.flagged = vidW1.flagged :=
  @c5_post_level_fields userC5W vidW1 wC5W faC5W (by rfl) (by rfl)

/-- A new reply whose parent comment does not exist in the video. -/
def coDanglingW : ActionedComment :=
  { new_comment := true, comment := 0, new_comment_id := 500, body := "re",
    liked := false, unliked := false, flagged := false, relativeTime := 10,
    reply_to := some 555, parent_comment := 555 }

/-- The log entry holding the dangling reply. -/
def faC6W : FeedAction :=
  { post := 100, liked := true, unliked := false, flagged := false,
    comments := [coDanglingW] }

/-- A user whose log holds the dangling reply. -/
def userC6W : User :=
  { interest := "Science", condition := "Control", createdAt := 0, feedAction := [faC6W] }

/-- Claim C6: a log entry with a new reply whose `parent_comment` matches no
top-level comment makes feed assembly fail (the modelled JavaScript
`TypeError` on `comments[-1]["subcomments"]`), rather than being skipped. -/
theorem c6_dangling_reply_failure :
    getFeed [vidW1, vidW2, vidW3] [actorW, actorBotW] envW 0 7 userC6W = none := by
  decide

/-- A reply to the harassment comment (`parent_comment = 13`). -/
def coReplyW : ActionedComment :=
  { new_comment := true, comment := 0, new_comment_id := 500, body := "totally agree",
    liked := true, unliked := false, flagged := false, relativeTime := 10,
    reply_to := some 13, parent_comment := 13 }

/-- The action-log entry holding the reply. -/
def faC7W : FeedAction :=
  { post := 100, liked := false, unliked := false, flagged := false, comments := [coReplyW] }

/-- A user whose log holds the reply. -/
def userC7W : User :=
  { interest := "Science", condition := "Control", createdAt := 0, feedAction := [faC7W] }

/-- The replayed first video of the reply scenario. -/
def wC7W : Video := (replayVideo userC7W vidW1).getD vidW1

theorem c7_witness :
    wC7W.comments.Pairwise (fun a b => b.time ≤ a.time)
    ∧ ∀ k rs, (k, rs) ∈ (processComments faC7W vidW1.comments).2 →
        ∃ c₀ c, (sortCommentsDesc (processComments faC7W vidW1.comments).1).find?
              (fun x => x.commentID == k) = some c₀
          ∧ c ∈ wC7W.comments ∧ c.commentID = k
          ∧ c.subcomments = sortSubcommentsAsc (c₀.subcomments ++ rs)
          ∧ c.subcomments.Pairwise (fun a b => a.time ≤ b.time) :=
  @c7_replay_orderings userC7W vidW1 wC7W faC7W (by rfl) (by rfl)

/-- The shared store of the scenario. -/
def storeW : Store :=
  { scripts := [vidW1, vidW2, vidW3], actors := [actorW, actorBotW] }

theorem c8_witness :
    (getFeedS (getFeedS storeW envW 0 7 userC5W).1 envW 0 7 userC5W).2
        = (getFeedS storeW envW 0 7 userC5W).2
    ∧ wC5W.likes = vidW1.likes + 1 ∧ wC5W.like = true :=
  @c8_idempotent_assembly storeW envW 0 7 userC5W vidW1 wC5W faC5W (by rfl) (by rfl) (by rfl)
